import Mathlib

/-
Verification development for the tuxtui terminal-rendering core
(crates/tuxtui-core). The Rust sources are shallowly embedded:
`u16` values become `Nat` with explicit saturating operations and
`% 65536` where the source's release-mode wrapping arithmetic matters;
`Vec<Cell>` becomes `List Cell`; fallible operations return `Option` /
`Except`. Each definition mirrors one source function, named after it.
-/

/-- Exclusive upper bound of `u16`. -/
def U16LIM : Nat := 65536

/-- Largest `u16` value. -/
def U16MAX : Nat := 65535

/-- `u16::saturating_add`. -/
def satAdd (a b : Nat) : Nat := min (a + b) U16MAX

/-- `u16::saturating_mul`. -/
def satMul (a b : Nat) : Nat := min (a * b) U16MAX

/-- `style::Color` (src/crates/tuxtui-core/src/style.rs). Only the data
shape matters to the claims; `Indexed`/`Rgb` payloads are `Nat` for `u8`. -/
inductive Color where
  | reset
  | black
  | red
  | green
  | yellow
  | blue
  | magenta
  | cyan
  | white
  | gray
  | lightRed
  | lightGreen
  | lightYellow
  | lightBlue
  | lightMagenta
  | lightCyan
  | lightGray
  | indexed (i : Nat)
  | rgb (r g b : Nat)
deriving DecidableEq

/-- `style::Style`: optional fg/bg colors plus additive and subtractive
modifier bitsets (`Modifier` is a `u16` bitflag set, modelled as `Nat`). -/
structure Style where
  fg : Option Color
  bg : Option Color
  add_modifier : Nat
  sub_modifier : Nat
deriving DecidableEq

/-- `Style::default()`: no colors, empty modifier sets. -/
def Style.default : Style := ⟨none, none, 0, 0⟩

/-- `buffer::Cell`: a grapheme-cluster symbol, a style, and the skip flag
used for wide-character continuations. -/
structure Cell where
  symbol : String
  style : Style
  skip : Bool
deriving DecidableEq

/-- `Cell::default()`: a single space, default style, not skipped.
`Cell::reset` produces exactly this value. -/
def Cell.defaultCell : Cell := ⟨" ", Style.default, false⟩

/-- Width of one scalar value, modelled from the external unicode-width
crate: 2 for the main East-Asian wide ranges, 0 for combining marks,
1 otherwise. The claims only rely on ASCII being width 1 and CJK
ideographs being width 2, which this table gets right. -/
def charWidth (c : Char) : Nat :=
  let n := c.toNat
  if (0x1100 ≤ n ∧ n ≤ 0x115F) ∨ (0x2E80 ≤ n ∧ n ≤ 0x303E) ∨
     (0x3041 ≤ n ∧ n ≤ 0x33FF) ∨ (0x3400 ≤ n ∧ n ≤ 0x4DBF) ∨
     (0x4E00 ≤ n ∧ n ≤ 0x9FFF) ∨ (0xA000 ≤ n ∧ n ≤ 0xA4CF) ∨
     (0xAC00 ≤ n ∧ n ≤ 0xD7A3) ∨ (0xF900 ≤ n ∧ n ≤ 0xFAFF) ∨
     (0xFE30 ≤ n ∧ n ≤ 0xFE4F) ∨ (0xFF00 ≤ n ∧ n ≤ 0xFF60) ∨
     (0xFFE0 ≤ n ∧ n ≤ 0xFFE6) ∨ (0x20000 ≤ n ∧ n ≤ 0x3FFFD) then 2
  else if 0x0300 ≤ n ∧ n ≤ 0x036F then 0
  else 1

/-- `UnicodeWidthStr::width` on a grapheme cluster: sum of scalar widths
(model of the external unicode-width crate). -/
def strWidth (s : String) : Nat := s.data.foldl (fun a c => a + charWidth c) 0

/-- `Cell::width`. -/
def Cell.width (c : Cell) : Nat := strWidth c.symbol

/-- `geometry::Rect`: top-left corner plus extent, all `u16` in the source. -/
structure Rect where
  x : Nat
  y : Nat
  width : Nat
  height : Nat
deriving DecidableEq

/-- `Rect::left`. -/
def Rect.left (r : Rect) : Nat := r.x

/-- `Rect::top`. -/
def Rect.top (r : Rect) : Nat := r.y

/-- `Rect::right`: `x.saturating_add(width)`. -/
def Rect.right (r : Rect) : Nat := min (r.x + r.width) U16MAX

/-- `Rect::bottom`: `y.saturating_add(height)`. -/
def Rect.bottom (r : Rect) : Nat := min (r.y + r.height) U16MAX

/-- `Rect::area`: `width as u32 * height as u32` (no overflow possible). -/
def Rect.areaSize (r : Rect) : Nat := r.width * r.height

/-- `Rect::intersection` (saturating subtraction is `Nat` subtraction). -/
def Rect.intersection (a b : Rect) : Rect :=
  let x1 := max a.x b.x
  let y1 := max a.y b.y
  let x2 := min a.right b.right
  let y2 := min a.bottom b.bottom
  ⟨x1, y1, x2 - x1, y2 - y1⟩

/-- The x coordinates scanned by `for x in r.left()..r.right()`. -/
def Rect.xsList (r : Rect) : List Nat :=
  (List.range (r.right - r.left)).map (fun i => r.x + i)

/-- The y coordinates scanned by `for y in r.top()..r.bottom()`. -/
def Rect.ysList (r : Rect) : List Nat :=
  (List.range (r.bottom - r.top)).map (fun i => r.y + i)

/-- Row-major coordinate list of a rect, as scanned by the nested
`for y { for x }` loops in buffer.rs. -/
def Rect.coords (r : Rect) : List (Nat × Nat) :=
  r.ysList.flatMap (fun y => r.xsList.map (fun x => (x, y)))

/-- `buffer::Buffer`: an area and its cells in row-major order. -/
structure Buffer where
  area : Rect
  content : List Cell
deriving DecidableEq

/-- `Buffer::empty`. -/
def Buffer.empty (area : Rect) : Buffer :=
  ⟨area, List.replicate area.areaSize Cell.defaultCell⟩

/-- `Buffer::index_of`. The source compares `x < self.area.x + self.area.width`
with plain `u16` addition, which wraps in release builds; the wrap is kept
explicit as `% U16LIM`. -/
def Buffer.index_of (b : Buffer) (x y : Nat) : Option Nat :=
  if b.area.x ≤ x ∧ x < (b.area.x + b.area.width) % U16LIM ∧
     b.area.y ≤ y ∧ y < (b.area.y + b.area.height) % U16LIM then
    some ((y - b.area.y) * b.area.width + (x - b.area.x))
  else
    none

/-- `Buffer::get`: `index_of` then `content.get`. -/
def Buffer.get (b : Buffer) (x y : Nat) : Option Cell :=
  (b.index_of x y).bind (fun i => b.content.get? i)

/-- Write through `Buffer::get_mut`: returns the updated buffer and whether
a cell existed at `(x, y)` (i.e. `get_mut` returned `Some`). -/
def Buffer.setCellAt (b : Buffer) (x y : Nat) (c : Cell) : Buffer × Bool :=
  match b.index_of x y with
  | some i =>
      if i < b.content.length then ({ b with content := b.content.set i c }, true)
      else (b, false)
  | none => (b, false)

/-- A wide-character continuation cell: `Cell::reset` followed by
`skip = true` (buffer.rs lines 188-189). -/
def contCell : Cell := ⟨" ", Style.default, true⟩

/-- The continuation-marking loop of `Buffer::set`:
`for i in 1..width { if let Some(next) = get_mut(x + i, y) { reset; skip } }`.
`x + i` is `u16` addition, hence the `% U16LIM`. -/
def Buffer.markCont (b : Buffer) (x y width : Nat) : Buffer :=
  (List.range (width - 1)).foldl
    (fun acc j => (acc.setCellAt ((x + (j + 1)) % U16LIM) y contCell).1) b

/-- `Buffer::set`: write symbol/style, clear skip, then mark `width - 1`
continuation cells; returns whether the primary write occurred. -/
def Buffer.set (b : Buffer) (x y : Nat) (symbol : String) (style : Style) :
    Buffer × Bool :=
  let width := strWidth symbol
  match b.setCellAt x y ⟨symbol, style, false⟩ with
  | (b1, true) => (b1.markCont x y width, true)
  | (b1, false) => (b1, false)

/-- `Buffer::set_string`. Grapheme segmentation is performed by the external
unicode-segmentation crate, so the embedding consumes the already-segmented
cluster list. `x += grapheme.width() as u16` wraps, hence `% U16LIM`. -/
def Buffer.set_string (b : Buffer) (x y : Nat) (gs : List String)
    (style : Style) : Buffer × Nat :=
  match gs with
  | [] => (b, x)
  | g :: rest =>
      if b.area.right ≤ x then (b, x)
      else Buffer.set_string (b.set x y g style).1 ((x + strWidth g) % U16LIM)
        y rest style

/-- `Buffer::clear`: reset every cell. -/
def Buffer.clear (b : Buffer) : Buffer :=
  { b with content := b.content.map (fun _ => Cell.defaultCell) }

/-- `Buffer::resize`: no-op when the area is unchanged, otherwise copy the
intersection into a fresh default-filled buffer. -/
def Buffer.resize (b : Buffer) (area : Rect) : Buffer :=
  if area = b.area then b
  else
    let inter := b.area.intersection area
    inter.coords.foldl
      (fun nb xy =>
        match b.get xy.1 xy.2 with
        | some cell =>
            match nb.index_of xy.1 xy.2 with
            | some i => { nb with content := nb.content.set i cell }
            | none => nb
        | none => nb)
      (Buffer.empty area)

/-- Exact (non-wrapping) in-bounds predicate for a coordinate: the condition
`x >= area.x && x < area.x + area.width && ...` of `Buffer::index_of`,
read with unbounded integer arithmetic. -/
def Rect.containsXY (r : Rect) (x y : Nat) : Prop :=
  r.x ≤ x ∧ x < r.x + r.width ∧ r.y ≤ y ∧ y < r.y + r.height

instance (r : Rect) (x y : Nat) : Decidable (r.containsXY x y) := by
  unfold Rect.containsXY
  exact inferInstance

/-- Well-formedness of a buffer: the area's edges fit in `u16` without
wrapping (true of every `Rect` actually used: `right()`/`bottom()` are
saturating, and buffers come from `Buffer::empty` at real terminal sizes)
and the content length invariant `length = width * height` maintained by
every constructor and by `resize`. -/
def Buffer.WF (b : Buffer) : Prop :=
  b.area.x + b.area.width ≤ U16MAX ∧ b.area.y + b.area.height ≤ U16MAX ∧
  b.content.length = b.area.width * b.area.height

instance (b : Buffer) : Decidable b.WF := by
  unfold Buffer.WF
  exact inferInstance

theorem Buffer.index_of_none_of_oob (b : Buffer) (x y : Nat)
    (h : ¬ b.area.containsXY x y) : b.index_of x y = none := by
  unfold Buffer.index_of
  rw [if_neg]
  intro hc
  obtain ⟨h1, h2, h3, h4⟩ := hc
  exact h ⟨h1, lt_of_lt_of_le h2 (Nat.mod_le _ _),
    h3, lt_of_lt_of_le h4 (Nat.mod_le _ _)⟩

theorem Buffer.index_of_wf (b : Buffer) (hb : b.WF) (x y : Nat) :
    b.index_of x y =
      if b.area.containsXY x y then
        some ((y - b.area.y) * b.area.width + (x - b.area.x))
      else none := by
  obtain ⟨h1, h2, _⟩ := hb
  simp only [U16MAX] at h1 h2
  unfold Buffer.index_of
  have e1 : (b.area.x + b.area.width) % U16LIM = b.area.x + b.area.width :=
    Nat.mod_eq_of_lt (by simp only [U16LIM]; omega)
  have e2 : (b.area.y + b.area.height) % U16LIM = b.area.y + b.area.height :=
    Nat.mod_eq_of_lt (by simp only [U16LIM]; omega)
  rw [e1, e2]
  rfl

theorem Buffer.index_lt_of_wf (b : Buffer) (hb : b.WF) (x y : Nat)
    (h : b.area.containsXY x y) :
    (y - b.area.y) * b.area.width + (x - b.area.x) < b.content.length := by
  obtain ⟨_, _, h3⟩ := hb
  obtain ⟨hx1, hx2, hy1, hy2⟩ := h
  rw [h3]
  have hcol : x - b.area.x < b.area.width := by omega
  have hrow : y - b.area.y < b.area.height := by omega
  calc (y - b.area.y) * b.area.width + (x - b.area.x)
      < (y - b.area.y) * b.area.width + b.area.width := by omega
    _ = (y - b.area.y + 1) * b.area.width := by ring
    _ ≤ b.area.height * b.area.width := Nat.mul_le_mul_right _ (by omega)
    _ = b.area.width * b.area.height := Nat.mul_comm _ _

theorem rowcol_inj (w a b c d : Nat) (hb : b < w) (hd : d < w)
    (h : a * w + b = c * w + d) : a = c ∧ b = d := by
  have hw : 0 < w := by omega
  have ha : (a * w + b) / w = a := by
    rw [Nat.mul_comm a w, Nat.mul_add_div hw]
    simp [Nat.div_eq_of_lt hb]
  have hc : (c * w + d) / w = c := by
    rw [Nat.mul_comm c w, Nat.mul_add_div hw]
    simp [Nat.div_eq_of_lt hd]
  have hac : a = c := by rw [← ha, ← hc, h]
  refine ⟨hac, ?_⟩
  rw [hac] at h
  omega

theorem Buffer.index_of_inj (b : Buffer) (x1 y1 x2 y2 : Nat)
    (h1 : b.area.containsXY x1 y1) (h2 : b.area.containsXY x2 y2)
    (hne : (x1, y1) ≠ (x2, y2)) :
    (y1 - b.area.y) * b.area.width + (x1 - b.area.x) ≠
      (y2 - b.area.y) * b.area.width + (x2 - b.area.x) := by
  intro heq
  obtain ⟨ha1, ha2, ha3, ha4⟩ := h1
  obtain ⟨hb1, hb2, hb3, hb4⟩ := h2
  obtain ⟨hr, hc⟩ := rowcol_inj b.area.width _ _ _ _ (by omega) (by omega) heq
  apply hne
  have : x1 = x2 := by omega
  have : y1 = y2 := by omega
  simp_all

/-- **C9**: out-of-range coordinates: `index_of` and `get` return `None`,
and a point write `set` leaves the buffer unchanged and returns `false`
(a silent no-op, never a fault). -/
theorem c9_out_of_bounds_safe (b : Buffer) (x y : Nat)
    (h : ¬ b.area.containsXY x y) :
    b.index_of x y = none ∧ b.get x y = none ∧
    ∀ sym st, b.set x y sym st = (b, false) := by
  have hio : b.index_of x y = none := b.index_of_none_of_oob x y h
  refine ⟨hio, ?_, ?_⟩
  · unfold Buffer.get
    rw [hio]
    rfl
  · intro sym st
    unfold Buffer.set Buffer.setCellAt
    rw [hio]

/-- Witness for C9 at a concrete input: `(5, 0)` lies outside a 2-by-2
buffer at the origin, and reading it yields `none`. -/
theorem c9_witness :
    ¬ (Buffer.empty ⟨0, 0, 2, 2⟩).area.containsXY 5 0 ∧
    (Buffer.empty ⟨0, 0, 2, 2⟩).get 5 0 = none :=
  ⟨by decide, (c9_out_of_bounds_safe (Buffer.empty ⟨0, 0, 2, 2⟩) 5 0
    (by decide)).2.1⟩

theorem Buffer.index_of_some (b : Buffer) (x y i : Nat)
    (h : b.index_of x y = some i) :
    b.area.containsXY x y ∧
    i = (y - b.area.y) * b.area.width + (x - b.area.x) := by
  unfold Buffer.index_of at h
  split at h
  · rename_i hc
    obtain ⟨h1, h2, h3, h4⟩ := hc
    injection h with h5
    exact ⟨⟨h1, lt_of_lt_of_le h2 (Nat.mod_le _ _),
      h3, lt_of_lt_of_le h4 (Nat.mod_le _ _)⟩, h5.symm⟩
  · exact absurd h (by simp)

theorem Buffer.setCellAt_area (b : Buffer) (x y : Nat) (c : Cell) :
    ((b.setCellAt x y c).1).area = b.area := by
  unfold Buffer.setCellAt
  rcases b.index_of x y with _ | i
  · rfl
  · dsimp only
    split
    · rfl
    · rfl

theorem Buffer.setCellAt_WF (b : Buffer) (x y : Nat) (c : Cell) (hb : b.WF) :
    ((b.setCellAt x y c).1).WF := by
  unfold Buffer.setCellAt
  rcases b.index_of x y with _ | i
  · exact hb
  · dsimp only
    split
    · obtain ⟨h1, h2, h3⟩ := hb
      exact ⟨h1, h2, by simpa using h3⟩
    · exact hb


/-- Replace the cell at content index `i` (the effect of writing through a
`get_mut` borrow). -/
def Buffer.contentSet (b : Buffer) (i : Nat) (c : Cell) : Buffer :=
  { b with content := b.content.set i c }

theorem Buffer.contentSet_area (b : Buffer) (i : Nat) (c : Cell) :
    (b.contentSet i c).area = b.area := rfl

theorem Buffer.contentSet_WF (b : Buffer) (i : Nat) (c : Cell) (hb : b.WF) :
    (b.contentSet i c).WF := by
  obtain ⟨h1, h2, h3⟩ := hb
  exact ⟨h1, h2, by simpa [Buffer.contentSet] using h3⟩

/-- Shorthand for the row-major content index of an in-bounds coordinate. -/
def Buffer.idx (b : Buffer) (x y : Nat) : Nat :=
  (y - b.area.y) * b.area.width + (x - b.area.x)

theorem Buffer.setCellAt_of_contains (b : Buffer) (hb : b.WF) (x y : Nat)
    (c : Cell) (h : b.area.containsXY x y) :
    b.setCellAt x y c = (b.contentSet (b.idx x y) c, true) := by
  unfold Buffer.setCellAt
  rw [b.index_of_wf hb, if_pos h]
  dsimp only
  rw [if_pos (b.index_lt_of_wf hb x y h)]
  rfl

theorem Buffer.get_wf (b : Buffer) (hb : b.WF) (x y : Nat)
    (h : b.area.containsXY x y) :
    b.get x y = b.content.get? (b.idx x y) := by
  unfold Buffer.get
  rw [b.index_of_wf hb, if_pos h]
  rfl

theorem Buffer.get_isSome_of_wf (b : Buffer) (hb : b.WF) (x y : Nat)
    (h : b.area.containsXY x y) : ∃ c, b.get x y = some c := by
  rw [b.get_wf hb x y h]
  have hlt := b.index_lt_of_wf hb x y h
  exact ⟨_, List.get?_eq_get hlt⟩

theorem Buffer.idx_inj (b : Buffer) (x1 y1 x2 y2 : Nat)
    (h1 : b.area.containsXY x1 y1) (h2 : b.area.containsXY x2 y2)
    (hne : (x1, y1) ≠ (x2, y2)) : b.idx x1 y1 ≠ b.idx x2 y2 :=
  b.index_of_inj x1 y1 x2 y2 h1 h2 hne

theorem Buffer.contentSet_get_self (b : Buffer) (hb : b.WF) (x y : Nat)
    (c : Cell) (h : b.area.containsXY x y) :
    (b.contentSet (b.idx x y) c).get x y = some c := by
  have hwf2 := b.contentSet_WF (b.idx x y) c hb
  rw [Buffer.get_wf _ hwf2 x y h]
  have : (b.contentSet (b.idx x y) c).idx x y = b.idx x y := rfl
  rw [this]
  show (b.content.set (b.idx x y) c).get? (b.idx x y) = some c
  exact List.get?_set_eq_of_lt c (b.index_lt_of_wf hb x y h)

theorem Buffer.contentSet_get_ne (b : Buffer) (x y x2 y2 i : Nat) (c : Cell)
    (hic : b.area.containsXY x y) (hi : i = b.idx x y)
    (hne : (x2, y2) ≠ (x, y)) :
    (b.contentSet i c).get x2 y2 = b.get x2 y2 := by
  unfold Buffer.get
  have harea : (b.contentSet i c).index_of x2 y2 = b.index_of x2 y2 := rfl
  rw [harea]
  rcases hio2 : b.index_of x2 y2 with _ | i2
  · rfl
  · obtain ⟨hc2, hi2⟩ := b.index_of_some x2 y2 i2 hio2
    show (b.content.set i c).get? i2 = b.content.get? i2
    apply List.get?_set_ne
    rw [hi, hi2]
    exact b.idx_inj x y x2 y2 hic hc2 (fun hq => hne hq.symm)

theorem Buffer.setCellAt_get_ne (b : Buffer) (x y x2 y2 : Nat) (c : Cell)
    (hne : (x2, y2) ≠ (x, y)) :
    ((b.setCellAt x y c).1).get x2 y2 = b.get x2 y2 := by
  unfold Buffer.setCellAt
  rcases hio : b.index_of x y with _ | i
  · rfl
  · dsimp only
    split
    · obtain ⟨hc, hi⟩ := b.index_of_some x y i hio
      show (b.contentSet i c).get x2 y2 = b.get x2 y2
      exact b.contentSet_get_ne x y x2 y2 i c hc hi hne
    · rfl

/-- `markCont` generalized over the number of continuation cells, for
induction: the loop body applied to `List.range n`. -/
def Buffer.markContN (b : Buffer) (x y n : Nat) : Buffer :=
  (List.range n).foldl
    (fun acc j => (acc.setCellAt ((x + (j + 1)) % U16LIM) y contCell).1) b

theorem Buffer.markCont_eq_markContN (b : Buffer) (x y w : Nat) :
    b.markCont x y w = b.markContN x y (w - 1) := rfl

theorem Buffer.markContN_spec (x y : Nat) :
    ∀ (n : Nat) (b : Buffer), b.WF → x + n ≤ U16MAX →
      (b.markContN x y n).area = b.area ∧ (b.markContN x y n).WF ∧
      (∀ x2 y2, (∀ j, j < n → ¬(x2 = x + (j + 1) ∧ y2 = y)) →
        (b.markContN x y n).get x2 y2 = b.get x2 y2) ∧
      (∀ j, j < n → b.area.containsXY (x + (j + 1)) y →
        (b.markContN x y n).get (x + (j + 1)) y = some contCell) := by
  intro n
  induction n with
  | zero =>
      intro b hb _
      refine ⟨rfl, hb, fun x2 y2 _ => rfl, fun j hj _ => absurd hj (by omega)⟩
  | succ n ih =>
      intro b hb hle
      have hmod : (x + (n + 1)) % U16LIM = x + (n + 1) :=
        Nat.mod_eq_of_lt (by simp only [U16LIM, U16MAX] at *; omega)
      have hstep : b.markContN x y (n + 1) =
          ((b.markContN x y n).setCellAt (x + (n + 1)) y contCell).1 := by
        unfold Buffer.markContN
        rw [List.range_succ, List.foldl_append]
        simp only [List.foldl_cons, List.foldl_nil]
        rw [hmod]
      obtain ⟨iha, ihw, ihu, ihc⟩ := ih b hb (by omega)
      refine ⟨?_, ?_, ?_, ?_⟩
      · rw [hstep, Buffer.setCellAt_area, iha]
      · rw [hstep]
        exact Buffer.setCellAt_WF _ _ _ _ ihw
      · intro x2 y2 havoid
        rw [hstep, Buffer.setCellAt_get_ne]
        · exact ihu x2 y2 (fun j hj => havoid j (by omega))
        · intro hq
          simp only [Prod.mk.injEq] at hq
          exact havoid n (by omega) hq
      · intro j hj hcont
        rw [hstep]
        by_cases hjn : j = n
        · have hcont2 : (b.markContN x y n).area.containsXY (x + (n + 1)) y := by
            rw [iha, ← hjn]
            exact hcont
          rw [hjn, Buffer.setCellAt_of_contains _ ihw _ _ _ hcont2]
          exact Buffer.contentSet_get_self _ ihw _ _ _ hcont2
        · rw [Buffer.setCellAt_get_ne]
          · exact ihc j (by omega) hcont
          · intro hq
            simp only [Prod.mk.injEq] at hq
            omega

theorem Buffer.set_of_contains (b : Buffer) (hb : b.WF) (x y : Nat)
    (sym : String) (st : Style) (h : b.area.containsXY x y) :
    b.set x y sym st =
      ((b.contentSet (b.idx x y) ⟨sym, st, false⟩).markCont x y
        (strWidth sym), true) := by
  unfold Buffer.set
  rw [b.setCellAt_of_contains hb x y _ h]

theorem Buffer.set_of_oob (b : Buffer) (x y : Nat) (sym : String) (st : Style)
    (h : ¬ b.area.containsXY x y) : b.set x y sym st = (b, false) := by
  unfold Buffer.set Buffer.setCellAt
  rw [b.index_of_none_of_oob x y h]

/-- **C4**: `set` at an in-bounds `(x, y)` overwrites that cell with the
symbol/style and a cleared skip flag, marks each following in-bounds cell
up to the symbol's width as reset-and-skipped (out-of-bounds continuations
are dropped, cells outside the written span are untouched), returns `true`
exactly when the primary cell was in bounds, and after a width-2 grapheme
`get (x+1) y` reports the skip-marked default cell. -/
theorem c4_set_wide_continuation (b : Buffer) (sym : String) (st : Style)
    (hb : b.WF) :
    (∀ x y, ((b.set x y sym st).2 = true ↔ b.area.containsXY x y)) ∧
    (∀ x y, b.area.containsXY x y → x + strWidth sym ≤ U16LIM →
      ((b.set x y sym st).1.get x y = some ⟨sym, st, false⟩ ∧
       (∀ i, 1 ≤ i → i < strWidth sym → b.area.containsXY (x + i) y →
          (b.set x y sym st).1.get (x + i) y = some contCell) ∧
       (∀ x2 y2, (x2, y2) ≠ (x, y) →
          (y2 ≠ y ∨ x2 < x ∨ x + strWidth sym ≤ x2) →
          (b.set x y sym st).1.get x2 y2 = b.get x2 y2) ∧
       (strWidth sym = 2 → b.area.containsXY (x + 1) y →
          (b.set x y sym st).1.get (x + 1) y = some contCell))) := by
  constructor
  · intro x y
    by_cases h : b.area.containsXY x y
    · rw [b.set_of_contains hb x y sym st h]
      simpa using h
    · rw [b.set_of_oob x y sym st h]
      simpa using h
  · intro x y hc hlim
    rw [b.set_of_contains hb x y sym st hc]
    dsimp only
    rw [Buffer.markCont_eq_markContN]
    have hwf1 := b.contentSet_WF (b.idx x y) ⟨sym, st, false⟩ hb
    have hbound : x + (strWidth sym - 1) ≤ U16MAX := by
      obtain ⟨hx1, hx2, _, _⟩ := hc
      obtain ⟨h1, _, _⟩ := hb
      simp only [U16LIM, U16MAX] at *
      omega
    obtain ⟨ma, mw, mu, mc⟩ :=
      Buffer.markContN_spec x y (strWidth sym - 1)
        (b.contentSet (b.idx x y) ⟨sym, st, false⟩) hwf1 hbound
    refine ⟨?_, ?_, ?_, ?_⟩
    · rw [mu x y (fun j hj hq => by omega)]
      exact b.contentSet_get_self hb x y _ hc
    · intro i hi1 hi2 hci
      have hj : i - 1 < strWidth sym - 1 := by omega
      have := mc (i - 1) hj (by
        show b.area.containsXY (x + (i - 1 + 1)) y
        have : x + (i - 1 + 1) = x + i := by omega
        rw [this]
        exact hci)
      have hre : x + (i - 1 + 1) = x + i := by omega
      rw [hre] at this
      exact this
    · intro x2 y2 hne hout
      rw [mu x2 y2 (fun j hj hq => by
        obtain ⟨hq1, hq2⟩ := hq
        rcases hout with h | h | h
        · exact h hq2
        · omega
        · omega)]
      exact Buffer.contentSet_get_ne b x y x2 y2 _ _ hc rfl hne
    · intro hw2 hc1
      have hj : (0 : Nat) < strWidth sym - 1 := by omega
      have := mc 0 hj (by simpa using hc1)
      simpa using this

/-- Witness for C4: writing the width-2 CJK grapheme at `(0, 0)` of a
3-by-1 buffer makes `get (1, 0)` report the skip-marked default cell. -/
theorem c4_witness :
    (Buffer.empty ⟨0, 0, 3, 1⟩).WF ∧
    (Buffer.empty ⟨0, 0, 3, 1⟩).area.containsXY 0 0 ∧
    ((Buffer.empty ⟨0, 0, 3, 1⟩).set 0 0 "世" Style.default).1.get (0 + 1) 0 =
      some contCell := by
  have h := c4_set_wide_continuation (Buffer.empty ⟨0, 0, 3, 1⟩) "世"
    Style.default (by decide)
  exact ⟨by decide, by decide,
    (h.2 0 0 (by decide) (by decide)).2.2.2 (by decide) (by decide)⟩

theorem Buffer.markContN_area (b : Buffer) (x y : Nat) :
    ∀ n, (b.markContN x y n).area = b.area := by
  intro n
  induction n with
  | zero => rfl
  | succ n ih =>
      show ((List.range (n + 1)).foldl _ b).area = b.area
      rw [List.range_succ, List.foldl_append]
      simp only [List.foldl_cons, List.foldl_nil]
      rw [Buffer.setCellAt_area]
      exact ih

theorem Buffer.set_area (b : Buffer) (x y : Nat) (sym : String) (st : Style) :
    ((b.set x y sym st).1).area = b.area := by
  unfold Buffer.set
  rcases hsc : b.setCellAt x y ⟨sym, st, false⟩ with ⟨b1, flag⟩
  have hb1 : b1.area = b.area := by
    have := b.setCellAt_area x y ⟨sym, st, false⟩
    rw [hsc] at this
    exact this
  cases flag
  · exact hb1
  · dsimp only
    rw [Buffer.markCont_eq_markContN, Buffer.markContN_area]
    exact hb1

/-- The starting columns of successive clusters of the given widths:
`startsFrom x ws = [x, x + w0, x + w0 + w1, ...]` (length `ws.length + 1`). -/
def startsFrom (x : Nat) : List Nat → List Nat
  | [] => [x]
  | w :: ws => x :: startsFrom (x + w) ws

/-- The clusters `set_string` actually writes, with their start columns:
clusters are taken while their START column lies strictly left of the
buffer's right edge (the truncation rule the code implements). -/
def writtenPrefix (right x : Nat) (gs : List String) : List (Nat × String) :=
  ((startsFrom x (gs.map strWidth)).zip gs).takeWhile
    (fun pg => decide (pg.1 < right))

theorem set_string_eq_writtenPrefix :
    ∀ (gs : List String) (b : Buffer) (x y : Nat) (st : Style),
      x + (gs.map strWidth).sum ≤ U16MAX →
      b.set_string x y gs st =
        ((writtenPrefix b.area.right x gs).foldl
            (fun acc pg => (acc.set pg.1 y pg.2 st).1) b,
          (startsFrom x (gs.map strWidth)).getD
            (writtenPrefix b.area.right x gs).length 0) := by
  intro gs
  induction gs with
  | nil =>
      intro b x y st _
      simp [Buffer.set_string, writtenPrefix, startsFrom]
  | cons g rest ih =>
      intro b x y st hsum
      simp only [List.map_cons, List.sum_cons] at hsum
      by_cases hxr : x < b.area.right
      · have hmod : (x + strWidth g) % U16LIM = x + strWidth g :=
          Nat.mod_eq_of_lt (by simp only [U16LIM, U16MAX] at *; omega)
        have hstep : b.set_string x y (g :: rest) st =
            Buffer.set_string (b.set x y g st).1 (x + strWidth g) y rest st := by
          conv_lhs => rw [Buffer.set_string]
          rw [if_neg (by omega), hmod]
        have harea : ((b.set x y g st).1).area.right = b.area.right := by
          rw [Buffer.set_area]
        have hwp : writtenPrefix b.area.right x (g :: rest) =
            (x, g) :: writtenPrefix b.area.right (x + strWidth g) rest := by
          unfold writtenPrefix
          simp only [List.map_cons]
          rw [show startsFrom x (strWidth g :: List.map strWidth rest) =
            x :: startsFrom (x + strWidth g) (List.map strWidth rest) from rfl]
          rw [List.zip_cons_cons, List.takeWhile_cons]
          simp [hxr]
        have hrec := ih (b.set x y g st).1 (x + strWidth g) y st (by omega)
        rw [harea] at hrec
        rw [hstep, hrec, hwp]
        simp only [List.foldl_cons, List.length_cons, List.map_cons]
        rfl
      · have hstep : b.set_string x y (g :: rest) st = (b, x) := by
          unfold Buffer.set_string
          rw [if_pos (by omega)]
        have hwp : writtenPrefix b.area.right x (g :: rest) = [] := by
          unfold writtenPrefix startsFrom
          simp only [List.map_cons, List.zip_cons_cons, List.takeWhile_cons]
          simp [hxr]
        rw [hstep, hwp]
        simp [startsFrom]

/-- **C3 counterexample**: on a 1-by-1 buffer, the width-2 cluster starting
at column 0 extends past the right edge (0 + 2 > 1) yet IS written, and the
returned x is 2 — refuting "a cluster whose width would extend past the
right edge is not written". -/
theorem c3_counterexample :
    strWidth "世" = 2 ∧
    (Buffer.empty ⟨0, 0, 1, 1⟩).area.right = 1 ∧
    ((Buffer.empty ⟨0, 0, 1, 1⟩).set_string 0 0 ["世"] Style.default).1.get 0 0 =
      some ⟨"世", Style.default, false⟩ ∧
    ((Buffer.empty ⟨0, 0, 1, 1⟩).set_string 0 0 ["世"] Style.default).2 = 2 :=
  ⟨by decide, by decide, by decide, by decide⟩

/-- **C3 (amended)**: `set_string` writes exactly the prefix of clusters
whose START column lies left of the right edge, each at the position after
its predecessors' widths (a cluster that starts inside the area is written
even if its width extends past the edge, with out-of-bounds continuations
dropped), and returns the column after the last written cluster; in
particular on a 10-by-1 buffer, writing `Hello` at `(0, 0)` fills columns
0..5 with `H,e,l,l,o` and returns 5. -/
theorem c3_set_string_truncation :
    (∀ (gs : List String) (b : Buffer) (x y : Nat) (st : Style),
      x + (gs.map strWidth).sum ≤ U16MAX →
      b.set_string x y gs st =
        ((writtenPrefix b.area.right x gs).foldl
            (fun acc pg => (acc.set pg.1 y pg.2 st).1) b,
          (startsFrom x (gs.map strWidth)).getD
            (writtenPrefix b.area.right x gs).length 0)) ∧
    (((Buffer.empty ⟨0, 0, 10, 1⟩).set_string 0 0 ["H", "e", "l", "l", "o"]
        Style.default).2 = 5 ∧
      ∀ i, i < 5 →
        (((Buffer.empty ⟨0, 0, 10, 1⟩).set_string 0 0 ["H", "e", "l", "l", "o"]
            Style.default).1.get i 0).map Cell.symbol =
          some (["H", "e", "l", "l", "o"].getD i "") ∧
        (((Buffer.empty ⟨0, 0, 10, 1⟩).set_string 0 0 ["H", "e", "l", "l", "o"]
            Style.default).1.get i 0).map Cell.style =
          some Style.default) := by
  refine ⟨set_string_eq_writtenPrefix, by decide, ?_⟩
  intro i hi
  interval_cases i <;> exact ⟨by decide, by decide⟩

/-- Witness for C3 (amended) at the `Hello` input. -/
theorem c3_witness :
    0 + (((["H", "e", "l", "l", "o"] : List String)).map strWidth).sum ≤
      U16MAX ∧
    (Buffer.empty ⟨0, 0, 10, 1⟩).set_string 0 0 ["H", "e", "l", "l", "o"]
        Style.default =
      ((writtenPrefix (Buffer.empty ⟨0, 0, 10, 1⟩).area.right 0
          ["H", "e", "l", "l", "o"]).foldl
          (fun acc pg => (acc.set pg.1 0 pg.2 Style.default).1)
          (Buffer.empty ⟨0, 0, 10, 1⟩),
        (startsFrom 0 (["H", "e", "l", "l", "o"].map strWidth)).getD
          (writtenPrefix (Buffer.empty ⟨0, 0, 10, 1⟩).area.right 0
            ["H", "e", "l", "l", "o"]).length 0) :=
  ⟨by decide, c3_set_string_truncation.1 ["H", "e", "l", "l", "o"]
    (Buffer.empty ⟨0, 0, 10, 1⟩) 0 0 Style.default (by decide)⟩

/-- `buffer::Diff`: a change record identifying a coordinate and the cells
to render there. -/
structure DiffRec where
  x : Nat
  y : Nat
  cells : List Cell
deriving DecidableEq

/-- One row of the area-mismatch ("full redraw") branch of `Buffer::diff`
(buffer.rs lines 311-339). The fold state is `(start_x, current_style,
diffs)` exactly as in the source loop; note the source pushes records with
`cells: Vec::new()` ("Simplified for now"). -/
def Buffer.diffMismatchRow (other : Buffer) (y : Nat) : List DiffRec :=
  ((other.area.xsList).foldl
    (fun st x =>
      match other.get x y with
      | none => st
      | some cell =>
          if cell.skip then st
          else
            let st1 := if st.1 = none then (some x, some cell.style, st.2.2)
              else st
            if some cell.style ≠ st1.2.1 then
              (some x, some cell.style,
                st1.2.2 ++ (match st1.1 with
                  | some sx => [⟨sx, y, ([] : List Cell)⟩]
                  | none => []))
            else st1)
    ((none, none, []) : Option Nat × Option Style × List DiffRec)).2.2

/-- `Buffer::diff`: full-redraw branch on area mismatch, otherwise the
row-major cell-by-cell comparison emitting one record (carrying the new
cell) per differing coordinate. -/
def Buffer.diff (old other : Buffer) : List DiffRec :=
  if old.area ≠ other.area then
    (other.area.ysList).flatMap (fun y => Buffer.diffMismatchRow other y)
  else
    (old.area.ysList).flatMap (fun y =>
      (old.area.xsList).filterMap (fun x =>
        if old.get x y ≠ other.get x y then
          (other.get x y).map (fun c => (⟨x, y, [c]⟩ : DiffRec))
        else none))

/-- Replay one diff record onto a buffer: write each carried cell at the
record's coordinate, as `Terminal::draw` replays records onto the backend. -/
def Buffer.applyRec (b : Buffer) (r : DiffRec) : Buffer :=
  r.cells.foldl (fun acc c => (acc.setCellAt r.x r.y c).1) b

/-- Replay a whole diff. -/
def Buffer.applyDiff (b : Buffer) (rs : List DiffRec) : Buffer :=
  rs.foldl Buffer.applyRec b

/-- The 1-by-1 old buffer of the C1 failing input. -/
def c1_old : Buffer := Buffer.empty ⟨0, 0, 1, 1⟩

/-- The 2-by-1 new buffer of the C1 failing input: an `A` at `(0, 0)`. -/
def c1_new : Buffer :=
  ((Buffer.empty ⟨0, 0, 2, 1⟩).set 0 0 "A" Style.default).1

/-- A non-default style used to exercise the style-run flush of the
area-mismatch branch. -/
def c1_styled : Style := ⟨some Color.red, none, 0, 0⟩

/-- Like `c1_new` but with a red `A`, so the row holds two style runs. -/
def c1_new2 : Buffer :=
  ((Buffer.empty ⟨0, 0, 2, 1⟩).set 0 0 "A" c1_styled).1

/-- **C1**: on an area mismatch the code does NOT describe a full repaint:
for the 1-by-1 vs 2-by-1 failing input the diff is empty although `new`
has a non-skip cell `A`, and when the row holds two style runs the single
emitted record carries no cells at all — records lack the cell content a
backend needs, as the spec's open question warns. -/
theorem c1_mismatch_records_lack_content :
    c1_old.area ≠ c1_new.area ∧
    c1_new.get 0 0 = some ⟨"A", Style.default, false⟩ ∧
    Buffer.diff c1_old c1_new = [] ∧
    c1_new2.get 0 0 = some ⟨"A", c1_styled, false⟩ ∧
    Buffer.diff c1_old c1_new2 = [⟨0, 0, []⟩] :=
  ⟨by decide, by decide, by decide, by decide, by decide⟩

theorem Rect.right_eq (r : Rect) (h : r.x + r.width ≤ U16MAX) :
    r.right = r.x + r.width := Nat.min_eq_left h

theorem Rect.bottom_eq (r : Rect) (h : r.y + r.height ≤ U16MAX) :
    r.bottom = r.y + r.height := Nat.min_eq_left h

theorem Rect.mem_xsList (r : Rect) (h : r.x + r.width ≤ U16MAX) (x : Nat) :
    x ∈ r.xsList ↔ r.x ≤ x ∧ x < r.x + r.width := by
  unfold Rect.xsList Rect.left
  rw [Rect.right_eq r h]
  simp only [List.mem_map, List.mem_range]
  constructor
  · rintro ⟨i, hi, rfl⟩
    omega
  · intro hx
    exact ⟨x - r.x, by omega, by omega⟩

theorem Rect.mem_ysList (r : Rect) (h : r.y + r.height ≤ U16MAX) (y : Nat) :
    y ∈ r.ysList ↔ r.y ≤ y ∧ y < r.y + r.height := by
  unfold Rect.ysList Rect.top
  rw [Rect.bottom_eq r h]
  simp only [List.mem_map, List.mem_range]
  constructor
  · rintro ⟨i, hi, rfl⟩
    omega
  · intro hy
    exact ⟨y - r.y, by omega, by omega⟩

theorem Rect.nodup_xsList (r : Rect) : r.xsList.Nodup :=
  List.Nodup.map (fun i j hij => by omega) (List.nodup_range _)

theorem Rect.nodup_ysList (r : Rect) : r.ysList.Nodup :=
  List.Nodup.map (fun i j hij => by omega) (List.nodup_range _)

theorem Rect.mem_coords (r : Rect) (hx : r.x + r.width ≤ U16MAX)
    (hy : r.y + r.height ≤ U16MAX) (p : Nat × Nat) :
    p ∈ r.coords ↔ r.containsXY p.1 p.2 := by
  unfold Rect.coords
  simp only [List.mem_flatMap, List.mem_map]
  constructor
  · rintro ⟨y, hyy, x, hxx, rfl⟩
    rw [r.mem_ysList hy] at hyy
    rw [r.mem_xsList hx] at hxx
    exact ⟨hxx.1, hxx.2, hyy.1, hyy.2⟩
  · intro hc
    obtain ⟨h1, h2, h3, h4⟩ := hc
    exact ⟨p.2, (r.mem_ysList hy p.2).mpr ⟨h3, h4⟩,
      p.1, (r.mem_xsList hx p.1).mpr ⟨h1, h2⟩, rfl⟩

theorem Rect.nodup_coords (r : Rect) : r.coords.Nodup := by
  unfold Rect.coords
  rw [List.nodup_flatMap]
  constructor
  · intro y _
    exact List.Nodup.map (fun a b hab => congrArg Prod.fst hab) r.nodup_xsList
  · apply List.Pairwise.imp ?_ r.nodup_ysList
    intro y1 y2 hne p hp1 hp2
    simp only [List.mem_map] at hp1 hp2
    obtain ⟨x1, _, rfl⟩ := hp1
    obtain ⟨x2, _, h2⟩ := hp2
    exact hne (congrArg Prod.snd h2).symm

/-- The per-coordinate comparison of the equal-area branch of
`Buffer::diff`: a record carrying the new cell iff the cells differ. -/
def diffCellF (old other : Buffer) (p : Nat × Nat) : Option DiffRec :=
  if old.get p.1 p.2 ≠ other.get p.1 p.2 then
    (other.get p.1 p.2).map (fun c => (⟨p.1, p.2, [c]⟩ : DiffRec))
  else none

theorem flatMap_filterMap_comm (xs : List Nat)
    (F : Nat × Nat → Option DiffRec) :
    ∀ ys : List Nat,
      (ys.flatMap fun y => xs.filterMap fun x => F (x, y)) =
        (ys.flatMap fun y => xs.map fun x => (x, y)).filterMap F := by
  intro ys
  induction ys with
  | nil => rfl
  | cons y ys ih =>
      simp only [List.flatMap_cons, List.filterMap_append, ih]
      congr 1
      rw [List.filterMap_map]
      rfl

theorem Buffer.diff_eq_of_eq_area (old other : Buffer)
    (h : old.area = other.area) :
    Buffer.diff old other = old.area.coords.filterMap (diffCellF old other) := by
  unfold Buffer.diff
  rw [if_neg (by simp [h])]
  unfold Rect.coords
  exact flatMap_filterMap_comm old.area.xsList (diffCellF old other)
    old.area.ysList

theorem diffCellF_some (old other : Buffer) (p : Nat × Nat) (r : DiffRec)
    (h : diffCellF old other p = some r) :
    r.x = p.1 ∧ r.y = p.2 ∧ old.get p.1 p.2 ≠ other.get p.1 p.2 ∧
    ∃ c, other.get p.1 p.2 = some c ∧ r.cells = [c] := by
  unfold diffCellF at h
  split at h
  · rename_i hne
    rcases hoc : other.get p.1 p.2 with _ | c
    · rw [hoc] at h
      simp at h
    · rw [hoc] at h
      simp only [Option.map_some'] at h
      injection h with h2
      rw [hoc] at hne
      exact ⟨by rw [← h2], by rw [← h2], hne, c, rfl, by rw [← h2]⟩
  · exact absurd h (by simp)

theorem diffCellF_of_eq (old other : Buffer) (p : Nat × Nat)
    (h : old.get p.1 p.2 = other.get p.1 p.2) :
    diffCellF old other p = none := by
  unfold diffCellF
  rw [if_neg]
  simp [h]

theorem diffCellF_of_ne (old other : Buffer) (p : Nat × Nat) (c : Cell)
    (hne : old.get p.1 p.2 ≠ other.get p.1 p.2)
    (hc : other.get p.1 p.2 = some c) :
    diffCellF old other p = some ⟨p.1, p.2, [c]⟩ := by
  unfold diffCellF
  rw [if_pos hne, hc]
  rfl

theorem Buffer.applyCells_area : ∀ (cs : List Cell) (b : Buffer) (x y : Nat),
    (cs.foldl (fun acc c => (acc.setCellAt x y c).1) b).area = b.area := by
  intro cs
  induction cs with
  | nil => intro b x y; rfl
  | cons c cs ih =>
      intro b x y
      rw [List.foldl_cons, ih, Buffer.setCellAt_area]

theorem Buffer.applyCells_WF : ∀ (cs : List Cell) (b : Buffer) (x y : Nat),
    b.WF → (cs.foldl (fun acc c => (acc.setCellAt x y c).1) b).WF := by
  intro cs
  induction cs with
  | nil => intro b x y hb; exact hb
  | cons c cs ih =>
      intro b x y hb
      rw [List.foldl_cons]
      exact ih _ x y (Buffer.setCellAt_WF b x y c hb)

theorem Buffer.applyCells_get_ne : ∀ (cs : List Cell) (b : Buffer)
    (x y x2 y2 : Nat), (x2, y2) ≠ (x, y) →
    (cs.foldl (fun acc c => (acc.setCellAt x y c).1) b).get x2 y2 =
      b.get x2 y2 := by
  intro cs
  induction cs with
  | nil => intro b x y x2 y2 _; rfl
  | cons c cs ih =>
      intro b x y x2 y2 hne
      rw [List.foldl_cons, ih _ x y x2 y2 hne, Buffer.setCellAt_get_ne]
      exact hne

theorem Buffer.applyRec_area (b : Buffer) (r : DiffRec) :
    (b.applyRec r).area = b.area := Buffer.applyCells_area r.cells b r.x r.y

theorem Buffer.applyRec_WF (b : Buffer) (r : DiffRec) (hb : b.WF) :
    (b.applyRec r).WF := Buffer.applyCells_WF r.cells b r.x r.y hb

theorem Buffer.applyRec_get_ne (b : Buffer) (r : DiffRec) (x2 y2 : Nat)
    (hne : (x2, y2) ≠ (r.x, r.y)) : (b.applyRec r).get x2 y2 = b.get x2 y2 :=
  Buffer.applyCells_get_ne r.cells b r.x r.y x2 y2 hne

theorem Buffer.applyDiff_area : ∀ (rs : List DiffRec) (b : Buffer),
    (b.applyDiff rs).area = b.area := by
  intro rs
  induction rs with
  | nil => intro b; rfl
  | cons r rs ih =>
      intro b
      show ((b.applyRec r).applyDiff rs).area = b.area
      rw [ih, Buffer.applyRec_area]

theorem Buffer.applyDiff_WF : ∀ (rs : List DiffRec) (b : Buffer),
    b.WF → (b.applyDiff rs).WF := by
  intro rs
  induction rs with
  | nil => intro b hb; exact hb
  | cons r rs ih =>
      intro b hb
      exact ih _ (b.applyRec_WF r hb)

theorem Buffer.applyDiff_get_none : ∀ (rs : List DiffRec) (b : Buffer)
    (x y : Nat), (∀ r ∈ rs, (x, y) ≠ (r.x, r.y)) →
    (b.applyDiff rs).get x y = b.get x y := by
  intro rs
  induction rs with
  | nil => intro b x y _; rfl
  | cons r rs ih =>
      intro b x y h
      show ((b.applyRec r).applyDiff rs).get x y = b.get x y
      rw [ih _ x y (fun s hs => h s (List.mem_cons_of_mem r hs)),
        Buffer.applyRec_get_ne]
      exact h r (List.mem_cons_self r rs)

theorem Buffer.applyRec_single_get (b : Buffer) (hb : b.WF) (x y : Nat)
    (c : Cell) (hc : b.area.containsXY x y) :
    (b.applyRec ⟨x, y, [c]⟩).get x y = some c := by
  show ((b.setCellAt x y c).1).get x y = some c
  rw [b.setCellAt_of_contains hb x y c hc]
  exact b.contentSet_get_self hb x y c hc

theorem Buffer.diff_self (A : Buffer) : A.diff A = [] := by
  rw [Buffer.diff_eq_of_eq_area A A rfl]
  apply List.filterMap_eq_nil_iff.mpr
  intro p _
  exact diffCellF_of_eq A A p rfl

theorem Buffer.applyDiff_append (b : Buffer) (u v : List DiffRec) :
    b.applyDiff (u ++ v) = (b.applyDiff u).applyDiff v := by
  unfold Buffer.applyDiff
  exact List.foldl_append Buffer.applyRec b u v

theorem Buffer.applyDiff_cons (b : Buffer) (r : DiffRec) (rs : List DiffRec) :
    b.applyDiff (r :: rs) = (b.applyRec r).applyDiff rs := rfl

theorem Buffer.applyDiff_diff_get (A B : Buffer) (hA : A.WF) (hB : B.WF)
    (hab : A.area = B.area) (x y : Nat) (hc : A.area.containsXY x y) :
    (A.applyDiff (A.diff B)).get x y = B.get x y := by
  have hAx : A.area.x + A.area.width ≤ U16MAX := hA.1
  have hAy : A.area.y + A.area.height ≤ U16MAX := hA.2.1
  by_cases heq : A.get x y = B.get x y
  · rw [Buffer.applyDiff_get_none]
    · exact heq
    · intro r hr
      rw [Buffer.diff_eq_of_eq_area A B hab, List.mem_filterMap] at hr
      obtain ⟨p, _, hpr⟩ := hr
      obtain ⟨hrx, hry, hne, _⟩ := diffCellF_some A B p r hpr
      intro hxy
      have hx1 : p.1 = x := by rw [← hrx]; exact (congrArg Prod.fst hxy).symm
      have hy1 : p.2 = y := by rw [← hry]; exact (congrArg Prod.snd hxy).symm
      rw [hx1, hy1] at hne
      exact hne heq
  · have hcB : B.area.containsXY x y := by rw [← hab]; exact hc
    obtain ⟨c, hcg⟩ := B.get_isSome_of_wf hB x y hcB
    have hmem : ((x, y) : Nat × Nat) ∈ A.area.coords :=
      (A.area.mem_coords hAx hAy (x, y)).mpr hc
    obtain ⟨l1, l2, hco⟩ := List.append_of_mem hmem
    have hnd := A.area.nodup_coords
    rw [hco] at hnd
    have hdisj := List.disjoint_of_nodup_append hnd
    have hnd2 : (((x, y) : Nat × Nat) :: l2).Nodup :=
      (List.nodup_append.mp hnd).2.1
    have hnotl2 : ((x, y) : Nat × Nat) ∉ l2 := (List.nodup_cons.mp hnd2).1
    have hF : diffCellF A B (x, y) = some ⟨x, y, [c]⟩ :=
      diffCellF_of_ne A B (x, y) c heq hcg
    rw [Buffer.diff_eq_of_eq_area A B hab, hco, List.filterMap_append,
      List.filterMap_cons_some hF, Buffer.applyDiff_append,
      Buffer.applyDiff_cons]
    rw [Buffer.applyDiff_get_none]
    · rw [Buffer.applyRec_single_get _ (Buffer.applyDiff_WF _ _ hA) x y c ?_,
        hcg]
      rw [Buffer.applyDiff_area]
      exact hc
    · intro r hr
      rw [List.mem_filterMap] at hr
      obtain ⟨p, hpl2, hpr⟩ := hr
      obtain ⟨hrx, hry, _, _⟩ := diffCellF_some A B p r hpr
      intro hxy
      apply hnotl2
      have hx1 : p.1 = x := by rw [← hrx]; exact (congrArg Prod.fst hxy).symm
      have hy1 : p.2 = y := by rw [← hry]; exact (congrArg Prod.snd hxy).symm
      have : p = ((x, y) : Nat × Nat) := by
        rw [← hx1, ← hy1]
      rw [← this]
      exact hpl2

/-- **C2**: for equal-area well-formed buffers the diff (1) only contains
records at in-area coordinates where the cells differ by value, each
carrying exactly the new cell; (2) contains a record for every differing
coordinate; (3) never emits two records for one coordinate; (4) is empty
for `diff(A, A)`; and (5) replaying it onto a copy of `A` reproduces `B`
at every non-skip cell. -/
theorem c2_equal_area_diff (A B : Buffer) (hA : A.WF) (hB : B.WF)
    (hab : A.area = B.area) :
    (∀ r, r ∈ A.diff B → A.area.containsXY r.x r.y ∧
       A.get r.x r.y ≠ B.get r.x r.y ∧
       ∃ c, B.get r.x r.y = some c ∧ r.cells = [c]) ∧
    (∀ x y, A.area.containsXY x y → A.get x y ≠ B.get x y →
       ∃ r, r ∈ A.diff B ∧ r.x = x ∧ r.y = y) ∧
    ((A.diff B).Pairwise (fun r s => (r.x, r.y) ≠ (s.x, s.y))) ∧
    (A.diff A = []) ∧
    (∀ x y, A.area.containsXY x y →
       (∀ c, B.get x y = some c → c.skip = false) →
       (A.applyDiff (A.diff B)).get x y = B.get x y) := by
  have hAx : A.area.x + A.area.width ≤ U16MAX := hA.1
  have hAy : A.area.y + A.area.height ≤ U16MAX := hA.2.1
  refine ⟨?_, ?_, ?_, Buffer.diff_self A, ?_⟩
  · intro r hr
    rw [Buffer.diff_eq_of_eq_area A B hab, List.mem_filterMap] at hr
    obtain ⟨p, hp, hpr⟩ := hr
    obtain ⟨hrx, hry, hne, c, hcg, hcl⟩ := diffCellF_some A B p r hpr
    rw [hrx, hry]
    exact ⟨(A.area.mem_coords hAx hAy p).mp hp, hne, c, hcg, hcl⟩
  · intro x y hcont hne
    have hcB : B.area.containsXY x y := by rw [← hab]; exact hcont
    obtain ⟨c, hcg⟩ := B.get_isSome_of_wf hB x y hcB
    refine ⟨⟨x, y, [c]⟩, ?_, rfl, rfl⟩
    rw [Buffer.diff_eq_of_eq_area A B hab, List.mem_filterMap]
    exact ⟨(x, y), (A.area.mem_coords hAx hAy (x, y)).mpr hcont,
      diffCellF_of_ne A B (x, y) c hne hcg⟩
  · rw [Buffer.diff_eq_of_eq_area A B hab]
    apply List.Pairwise.filterMap (diffCellF A B) ?_ A.area.nodup_coords
    intro p q hpq r hr s hs
    obtain ⟨hrx, hry, _, _⟩ := diffCellF_some A B p r (Option.mem_def.mp hr)
    obtain ⟨hsx, hsy, _, _⟩ := diffCellF_some A B q s (Option.mem_def.mp hs)
    intro h
    apply hpq
    have h2 : ((p.1, p.2) : Nat × Nat) = (q.1, q.2) := by
      rw [← hrx, ← hry, ← hsx, ← hsy]
      exact h
    rwa [Prod.mk.eta, Prod.mk.eta] at h2
  · intro x y hcont _
    exact Buffer.applyDiff_diff_get A B hA hB hab x y hcont

/-- Witness for C2: two 2-by-1 buffers differing at `(1, 0)`; the replayed
diff reproduces `B` there, and `diff(A, A)` is empty. -/
theorem c2_witness :
    (Buffer.empty ⟨0, 0, 2, 1⟩).WF ∧
    (((Buffer.empty ⟨0, 0, 2, 1⟩).set 1 0 "B" Style.default).1).WF ∧
    (Buffer.empty ⟨0, 0, 2, 1⟩).area =
      (((Buffer.empty ⟨0, 0, 2, 1⟩).set 1 0 "B" Style.default).1).area ∧
    Buffer.diff (Buffer.empty ⟨0, 0, 2, 1⟩) (Buffer.empty ⟨0, 0, 2, 1⟩) = [] ∧
    ((Buffer.empty ⟨0, 0, 2, 1⟩).applyDiff
        (Buffer.diff (Buffer.empty ⟨0, 0, 2, 1⟩)
          (((Buffer.empty ⟨0, 0, 2, 1⟩).set 1 0 "B" Style.default).1))).get 1 0 =
      (((Buffer.empty ⟨0, 0, 2, 1⟩).set 1 0 "B" Style.default).1).get 1 0 := by
  have h := c2_equal_area_diff (Buffer.empty ⟨0, 0, 2, 1⟩)
    (((Buffer.empty ⟨0, 0, 2, 1⟩).set 1 0 "B" Style.default).1)
    (by decide) (by decide) (by decide)
  exact ⟨by decide, by decide, by decide, h.2.2.2.1,
    h.2.2.2.2 1 0 (by decide) (by decide)⟩

/-- `layout::Constraint`. -/
inductive Constraint where
  | length (n : Nat)
  | min (n : Nat)
  | max (n : Nat)
  | fill (weight : Nat)
  | ratio (num den : Nat)
  | percentage (pct : Nat)
deriving DecidableEq

/-- `layout::Flex` (`End` is a Lean keyword, hence `endSide`). -/
inductive Flex where
  | start
  | center
  | endSide
  | spaceBetween
  | spaceAround
deriving DecidableEq

/-- `layout::Spacing`. -/
inductive Spacing where
  | gap (g : Nat)
  | overlap (o : Nat)
deriving DecidableEq

/-- `layout::Direction`. -/
inductive Direction where
  | horizontal
  | vertical
deriving DecidableEq

/-- `Constraint::Fill` discriminator (for stating Fill-free side conditions). -/
def Constraint.isFill : Constraint → Bool
  | .fill _ => true
  | _ => false

/-- Exclusive upper bound of `u32`. -/
def U32LIM : Nat := 4294967296

/-- The primary-axis span `total_space` selected by `calculate_layout`. -/
def dirSpan (d : Direction) (area : Rect) : Nat :=
  match d with
  | .horizontal => area.width
  | .vertical => area.height

/-- The cross-axis extent `cross_size` selected by `calculate_layout`. -/
def crossSpan (d : Direction) (area : Rect) : Nat :=
  match d with
  | .horizontal => area.height
  | .vertical => area.width

/-- First-pass size of one constraint: the `sizes.push(...)` values of
`calculate_layout`'s first loop (layout.rs lines 241-273). The `as u16`
casts of the Ratio/Percentage `u32` arithmetic are the `% U16LIM`. -/
def firstPassSize (total_space : Nat) : Constraint → Nat
  | .length len => len
  | .min m => m
  | .max m => Nat.min total_space m
  | .ratio num den =>
      if den = 0 then 0 else ((total_space * num) / den) % U16LIM
  | .percentage pct => ((total_space * pct) / 100) % U16LIM
  | .fill _ => 0

/-- The `fixed_space` accumulator of the first loop (`saturating_add` of
each non-Fill first-pass size). -/
def fixedSpace (total_space : Nat) (cs : List Constraint) : Nat :=
  cs.foldl
    (fun acc c => match c with
      | .fill _ => acc
      | _ => satAdd acc (firstPassSize total_space c)) 0

/-- The `fill_weights` accumulator (`u32` addition of each Fill weight). -/
def fillWeights (cs : List Constraint) : Nat :=
  cs.foldl
    (fun acc c => match c with
      | .fill w => (acc + w) % U32LIM
      | _ => acc) 0

/-- The `spacing_total` reservation (layout.rs lines 277-286);
`0u16.saturating_sub(..)` for Overlap is `Nat` subtraction from 0. -/
def spacingTotal (sp : Spacing) (n : Nat) : Nat :=
  if 1 < n then
    match sp with
    | .gap g => satMul g (n - 1)
    | .overlap o => 0 - satMul o (n - 1)
  else 0

/-- The resolved sizes after the second (Fill-distribution) pass
(layout.rs lines 292-301): Fill entries are overwritten with
`(available_for_fill * weight / fill_weights) as u16`. -/
def layoutSizes (d : Direction) (cs : List Constraint) (sp : Spacing)
    (area : Rect) : List Nat :=
  let total := dirSpan d area
  let sizes0 := cs.map (firstPassSize total)
  let avail := total - fixedSpace total cs - spacingTotal sp cs.length
  if 0 < fillWeights cs then
    (cs.zip sizes0).map
      (fun p => match p.1 with
        | .fill w => ((avail * w) / fillWeights cs) % U16LIM
        | _ => p.2)
  else sizes0

/-- `used_space`: the wrapping `u16` sum of the resolved sizes. -/
def usedSpace (sizes : List Nat) : Nat :=
  sizes.foldl (fun a s => (a + s) % U16LIM) 0

/-- The starting offset per flex mode (layout.rs lines 307-318); the plain
`u16` additions wrap, hence `% U16LIM`. -/
def startOffset (d : Direction) (fl : Flex) (area : Rect)
    (flex_space : Nat) : Nat × Nat :=
  match fl with
  | .start => (area.x, area.y)
  | .center =>
      match d with
      | .horizontal => ((area.x + flex_space / 2) % U16LIM, area.y)
      | .vertical => (area.x, (area.y + flex_space / 2) % U16LIM)
  | .endSide =>
      match d with
      | .horizontal => ((area.x + flex_space) % U16LIM, area.y)
      | .vertical => (area.x, (area.y + flex_space) % U16LIM)
  | .spaceBetween => (area.x, area.y)
  | .spaceAround => (area.x, area.y)

/-- The emission gap (layout.rs lines 321-324): `Overlap` saturates to 0. -/
def gapOf (sp : Spacing) : Nat :=
  match sp with
  | .gap g => g
  | .overlap o => 0 - o

/-- One step of the emission loop (layout.rs lines 326-337): emit a rect at
the running offset, then advance by `size + gap` (saturating). -/
def emitStep (d : Direction) (cross_size gap : Nat)
    (st : Nat × Nat × List Rect) (size : Nat) : Nat × Nat × List Rect :=
  match d with
  | .horizontal =>
      (satAdd (satAdd st.1 size) gap, st.2.1,
        st.2.2 ++ [Rect.mk st.1 st.2.1 size cross_size])
  | .vertical =>
      (st.1, satAdd (satAdd st.2.1 size) gap,
        st.2.2 ++ [Rect.mk st.1 st.2.1 cross_size size])

/-- `Layout::calculate_layout`: empty constraints yield no rects; otherwise
resolve sizes, pick the flex start offset, and emit one rect per size. -/
def calculate_layout (d : Direction) (cs : List Constraint) (fl : Flex)
    (sp : Spacing) (area : Rect) : List Rect :=
  if cs = [] then []
  else
    let sizes := layoutSizes d cs sp area
    let start := startOffset d fl area (dirSpan d area - usedSpace sizes)
    (sizes.foldl (emitStep d (crossSpan d area) (gapOf sp))
      (start.1, start.2, [])).2.2

/-- The primary-axis extent of an emitted rect. -/
def primExtent (d : Direction) (r : Rect) : Nat :=
  match d with
  | .horizontal => r.width
  | .vertical => r.height

theorem emit_map_primExtent (d : Direction) (cross gap : Nat) :
    ∀ (sizes : List Nat) (x y : Nat) (acc : List Rect),
      (((sizes.foldl (emitStep d cross gap) (x, y, acc)).2.2).map
        (primExtent d)) = acc.map (primExtent d) ++ sizes := by
  intro sizes
  induction sizes with
  | nil =>
      intro x y acc
      simp
  | cons s rest ih =>
      intro x y acc
      rw [List.foldl_cons]
      cases d
      · show ((rest.foldl (emitStep Direction.horizontal cross gap)
          (satAdd (satAdd x s) gap, y,
            acc ++ [Rect.mk x y s cross])).2.2).map
            (primExtent Direction.horizontal) = _
        rw [ih]
        simp [primExtent]
      · show ((rest.foldl (emitStep Direction.vertical cross gap)
          (x, satAdd (satAdd y s) gap,
            acc ++ [Rect.mk x y cross s])).2.2).map
            (primExtent Direction.vertical) = _
        rw [ih]
        simp [primExtent]

theorem fillWeights_of_noFill (cs : List Constraint)
    (h : ∀ c ∈ cs, c.isFill = false) : fillWeights cs = 0 := by
  unfold fillWeights
  induction cs with
  | nil => rfl
  | cons c rest ih =>
      rw [List.foldl_cons]
      have hc := h c (List.mem_cons_self c rest)
      have hrest : ∀ c2 ∈ rest, c2.isFill = false :=
        fun c2 h2 => h c2 (List.mem_cons_of_mem c h2)
      cases c with
      | fill w => exact absurd hc (by simp [Constraint.isFill])
      | length n => exact ih hrest
      | min n => exact ih hrest
      | max n => exact ih hrest
      | ratio a b => exact ih hrest
      | percentage p => exact ih hrest

theorem layoutSizes_of_noFill (d : Direction) (cs : List Constraint)
    (sp : Spacing) (area : Rect) (h : ∀ c ∈ cs, c.isFill = false) :
    layoutSizes d cs sp area = cs.map (firstPassSize (dirSpan d area)) := by
  unfold layoutSizes
  rw [fillWeights_of_noFill cs h]
  simp

/-- **C5 (amended)**: for a Fill-free constraint list the resolved
primary-axis sizes equal the per-constraint first-pass sizes (Length(n)→n,
Min(n)→n, Max(n)→min(span,n), Ratio→floor, Percentage→floor) — so the sum
of resolved sizes stays within the span exactly when those first-pass
sizes do (the code never clamps an oversubscribed list); and a single
`Fill(1)` constraint resolves to the full available span after spacing
reservation. -/
theorem c5_layout_conservation (d : Direction) (cs : List Constraint)
    (fl : Flex) (sp : Spacing) (area : Rect) :
    ((∀ c ∈ cs, c.isFill = false) →
      ((calculate_layout d cs fl sp area).map (primExtent d) =
        cs.map (firstPassSize (dirSpan d area)) ∧
       ((cs.map (firstPassSize (dirSpan d area))).sum ≤ dirSpan d area →
        ((calculate_layout d cs fl sp area).map (primExtent d)).sum ≤
          dirSpan d area))) ∧
    (dirSpan d area ≤ U16MAX →
      (calculate_layout d [Constraint.fill 1] fl sp area).map (primExtent d) =
        [dirSpan d area]) := by
  constructor
  · intro hnf
    have hmain : (calculate_layout d cs fl sp area).map (primExtent d) =
        cs.map (firstPassSize (dirSpan d area)) := by
      by_cases hcs : cs = []
      · subst hcs
        simp [calculate_layout]
      · unfold calculate_layout
        rw [if_neg hcs]
        dsimp only
        rw [emit_map_primExtent]
        simp only [List.map_nil, List.nil_append]
        exact layoutSizes_of_noFill d cs sp area hnf
    exact ⟨hmain, fun hsum => by rw [hmain]; exact hsum⟩
  · intro hle
    unfold calculate_layout
    rw [if_neg (by simp)]
    dsimp only
    rw [emit_map_primExtent]
    simp only [List.map_nil, List.nil_append]
    show layoutSizes d [Constraint.fill 1] sp area = [dirSpan d area]
    have hfw : fillWeights [Constraint.fill 1] = 1 := by decide
    have hfs : fixedSpace (dirSpan d area) [Constraint.fill 1] = 0 := rfl
    have hsp : spacingTotal sp 1 = 0 := by
      unfold spacingTotal
      rw [if_neg (by omega)]
    unfold layoutSizes
    rw [hfw]
    dsimp only
    rw [if_pos (by omega)]
    simp only [List.map_cons, List.map_nil, List.zip_cons_cons,
      List.length_cons, List.length_nil, hsp, hfs, Nat.sub_zero]
    rw [Nat.mul_one, Nat.div_one,
      Nat.mod_eq_of_lt (by simp only [U16LIM, U16MAX] at *; omega)]
    rfl

/-- **C5 counterexample**: the Fill-free list `[Length 2]` on a span-1 area
resolves to a height-2 rect — the sum of resolved sizes (2) exceeds the
total span (1), refuting unconditional layout conservation. -/
theorem c5_counterexample :
    ([Constraint.length 2].any Constraint.isFill) = false ∧
    calculate_layout Direction.vertical [Constraint.length 2] Flex.start
      (Spacing.gap 0) ⟨0, 0, 1, 1⟩ = [⟨0, 0, 1, 2⟩] ∧
    ¬ (((calculate_layout Direction.vertical [Constraint.length 2] Flex.start
          (Spacing.gap 0) ⟨0, 0, 1, 1⟩).map
          (primExtent Direction.vertical)).sum ≤
        dirSpan Direction.vertical ⟨0, 0, 1, 1⟩) :=
  ⟨by decide, by decide, by decide⟩

/-- Witness for C5 (amended) on concrete inputs: a Fill-free list whose
first-pass sizes fit the span, and a lone `Fill(1)`. -/
theorem c5_witness :
    ((∀ c ∈ [Constraint.length 2, Constraint.length 3],
        Constraint.isFill c = false) ∧
      ((calculate_layout Direction.vertical
          [Constraint.length 2, Constraint.length 3] Flex.start (Spacing.gap 0)
          ⟨0, 0, 4, 10⟩).map (primExtent Direction.vertical) =
        [Constraint.length 2, Constraint.length 3].map
          (firstPassSize (dirSpan Direction.vertical ⟨0, 0, 4, 10⟩)) ∧
       (([Constraint.length 2, Constraint.length 3].map
            (firstPassSize (dirSpan Direction.vertical ⟨0, 0, 4, 10⟩))).sum ≤
          dirSpan Direction.vertical ⟨0, 0, 4, 10⟩ →
        ((calculate_layout Direction.vertical
            [Constraint.length 2, Constraint.length 3] Flex.start
            (Spacing.gap 0) ⟨0, 0, 4, 10⟩).map
          (primExtent Direction.vertical)).sum ≤
          dirSpan Direction.vertical ⟨0, 0, 4, 10⟩))) ∧
    (dirSpan Direction.vertical ⟨0, 0, 4, 10⟩ ≤ U16MAX ∧
      (calculate_layout Direction.vertical [Constraint.fill 1] Flex.start
          (Spacing.gap 0) ⟨0, 0, 4, 10⟩).map (primExtent Direction.vertical) =
        [dirSpan Direction.vertical ⟨0, 0, 4, 10⟩]) :=
  ⟨⟨by decide, (c5_layout_conservation Direction.vertical
      [Constraint.length 2, Constraint.length 3] Flex.start (Spacing.gap 0)
      ⟨0, 0, 4, 10⟩).1 (by decide)⟩,
   by decide, (c5_layout_conservation Direction.vertical
      [Constraint.length 2, Constraint.length 3] Flex.start (Spacing.gap 0)
      ⟨0, 0, 4, 10⟩).2 (by decide)⟩

/-- **C8**: `Flex::SpaceBetween` and `Flex::SpaceAround` produce exactly
the rectangles of `Flex::Start` on every input — the enum documents
distributing the slack, but the start-offset match lumps all three
together, so no input distinguishes them. -/
theorem c8_space_flex_equals_start (d : Direction) (cs : List Constraint)
    (sp : Spacing) (area : Rect) :
    calculate_layout d cs Flex.spaceBetween sp area =
      calculate_layout d cs Flex.start sp area ∧
    calculate_layout d cs Flex.spaceAround sp area =
      calculate_layout d cs Flex.start sp area :=
  ⟨rfl, rfl⟩

/-- `layout::LayoutCacheKey` (layout.rs lines 343-351). -/
structure LayoutCacheKey where
  area : Rect
  direction : Direction
  constraints : List Constraint
  flex : Flex
  spacing : Spacing
deriving DecidableEq

/-- Model of the external lru crate's bounded `LruCache`: entries kept
most-recent-first; `get` promotes a hit to the front; `put` inserts at the
front (replacing any entry with the same key) and evicts least-recent
entries beyond the capacity. -/
structure LruCache where
  cap : Nat
  entries : List (LayoutCacheKey × List Rect)

/-- `LruCache::get`: look the key up; on a hit return the stored value and
move the entry to the front. -/
def LruCache.getE (c : LruCache) (k : LayoutCacheKey) :
    Option (List Rect) × LruCache :=
  match c.entries.find? (fun e => decide (e.1 = k)) with
  | some e =>
      (some e.2,
        { c with entries := e :: c.entries.filter (fun e2 => !decide (e2.1 = k)) })
  | none => (none, c)

/-- `LruCache::put`: insert at the front, dropping any previous entry for
the key, then truncate to capacity (LRU eviction). -/
def LruCache.putE (c : LruCache) (k : LayoutCacheKey) (v : List Rect) :
    LruCache :=
  { c with entries :=
      ((k, v) :: c.entries.filter (fun e2 => !decide (e2.1 = k))).take c.cap }

/-- `layout::Layout`: the builder fields plus the optional memo cache
(`cache = none` models the cache-disabled configuration). -/
structure Layout where
  direction : Direction
  constraints : List Constraint
  flex : Flex
  spacing : Spacing
  cache : Option LruCache

/-- `Layout::split` (layout.rs lines 195-223): consult the cache under the
full key, computing and inserting on a miss; without a cache just compute. -/
def Layout.split (l : Layout) (area : Rect) : List Rect × Layout :=
  match l.cache with
  | none => (calculate_layout l.direction l.constraints l.flex l.spacing area, l)
  | some c =>
      match c.getE ⟨area, l.direction, l.constraints, l.flex, l.spacing⟩ with
      | (some rects, c1) => (rects, { l with cache := some c1 })
      | (none, c1) =>
          (calculate_layout l.direction l.constraints l.flex l.spacing area,
            { l with cache := some (c1.putE
              ⟨area, l.direction, l.constraints, l.flex, l.spacing⟩
              (calculate_layout l.direction l.constraints l.flex l.spacing
                area)) })

/-- The fresh computation a cache entry must agree with. -/
def calcKey (k : LayoutCacheKey) : List Rect :=
  calculate_layout k.direction k.constraints k.flex k.spacing k.area

/-- Every cached entry stores exactly the fresh computation for its key. -/
def entriesOK (es : List (LayoutCacheKey × List Rect)) : Prop :=
  ∀ e ∈ es, e.2 = calcKey e.1

/-- Cache correctness invariant of a `Layout`. -/
def Layout.cacheOK (l : Layout) : Prop :=
  ∀ c, l.cache = some c → entriesOK c.entries

theorem LruCache.getE_fst (c : LruCache) (k : LayoutCacheKey)
    (hok : entriesOK c.entries) (v : List Rect)
    (h : (c.getE k).1 = some v) : v = calcKey k := by
  unfold LruCache.getE at h
  cases hf : c.entries.find? (fun e => decide (e.1 = k)) with
  | none => rw [hf] at h; exact absurd h (by simp)
  | some e =>
      rw [hf] at h
      simp only at h
      injection h with h2
      have hmem := List.mem_of_find?_eq_some hf
      have hkey : e.1 = k := by
        have hp := List.find?_some hf
        simpa using hp
      rw [← h2, hok e hmem, hkey]

theorem LruCache.getE_snd_ok (c : LruCache) (k : LayoutCacheKey)
    (hok : entriesOK c.entries) : entriesOK ((c.getE k).2).entries := by
  unfold LruCache.getE
  cases hf : c.entries.find? (fun e => decide (e.1 = k)) with
  | none => exact hok
  | some e =>
      simp only
      intro e2 he2
      rcases List.mem_cons.mp he2 with h | h
      · rw [h]
        exact hok e (List.mem_of_find?_eq_some hf)
      · exact hok e2 (List.mem_of_mem_filter h)

theorem LruCache.putE_ok (c : LruCache) (k : LayoutCacheKey) (v : List Rect)
    (hok : entriesOK c.entries) (hv : v = calcKey k) :
    entriesOK ((c.putE k v).entries) := by
  unfold LruCache.putE
  intro e he
  have he2 := List.take_subset _ _ he
  rcases List.mem_cons.mp he2 with h | h
  · rw [h]
    exact hv
  · exact hok e (List.mem_of_mem_filter h)

theorem Layout.split_fst (l : Layout) (area : Rect) (hok : l.cacheOK) :
    (l.split area).1 =
      calculate_layout l.direction l.constraints l.flex l.spacing area := by
  unfold Layout.split
  cases hc : l.cache with
  | none => rfl
  | some c =>
      simp only
      rcases hge : c.getE ⟨area, l.direction, l.constraints, l.flex, l.spacing⟩
        with ⟨_ | v, c1⟩
      · rfl
      · simp only
        have : v = calcKey ⟨area, l.direction, l.constraints, l.flex,
            l.spacing⟩ :=
          c.getE_fst _ (hok c hc) v (by rw [hge])
        rw [this]
        rfl

theorem Layout.split_snd_cfg (l : Layout) (area : Rect) :
    (l.split area).2.direction = l.direction ∧
    (l.split area).2.constraints = l.constraints ∧
    (l.split area).2.flex = l.flex ∧
    (l.split area).2.spacing = l.spacing := by
  unfold Layout.split
  cases l.cache with
  | none => exact ⟨rfl, rfl, rfl, rfl⟩
  | some c =>
      simp only
      rcases c.getE ⟨area, l.direction, l.constraints, l.flex, l.spacing⟩
        with ⟨_ | v, c1⟩
      · exact ⟨rfl, rfl, rfl, rfl⟩
      · exact ⟨rfl, rfl, rfl, rfl⟩

theorem Layout.split_snd_ok (l : Layout) (area : Rect) (hok : l.cacheOK) :
    ((l.split area).2).cacheOK := by
  unfold Layout.split
  cases hc : l.cache with
  | none => exact hok
  | some c =>
      simp only
      rcases hge : c.getE ⟨area, l.direction, l.constraints, l.flex, l.spacing⟩
        with ⟨_ | v, c1⟩
      · intro c2 hc2
        simp only at hc2
        injection hc2 with hc3
        rw [← hc3]
        apply c1.putE_ok
        · have := c.getE_snd_ok ⟨area, l.direction, l.constraints, l.flex,
            l.spacing⟩ (hok c hc)
          rw [hge] at this
          exact this
        · rfl
      · intro c2 hc2
        simp only at hc2
        injection hc2 with hc3
        rw [← hc3]
        have := c.getE_snd_ok ⟨area, l.direction, l.constraints, l.flex,
          l.spacing⟩ (hok c hc)
        rw [hge] at this
        exact this

/-- Fold a sequence of `split` calls for their cache side effects. -/
def runSplits (l : Layout) (areas : List Rect) : Layout :=
  areas.foldl (fun acc a => (acc.split a).2) l

theorem runSplits_spec : ∀ (areas : List Rect) (l : Layout), l.cacheOK →
    (runSplits l areas).direction = l.direction ∧
    (runSplits l areas).constraints = l.constraints ∧
    (runSplits l areas).flex = l.flex ∧
    (runSplits l areas).spacing = l.spacing ∧
    (runSplits l areas).cacheOK := by
  intro areas
  induction areas with
  | nil => intro l hok; exact ⟨rfl, rfl, rfl, rfl, hok⟩
  | cons a rest ih =>
      intro l hok
      have hstep := Layout.split_snd_cfg l a
      have hok2 := Layout.split_snd_ok l a hok
      have hr := ih (l.split a).2 hok2
      exact ⟨hr.1.trans hstep.1, hr.2.1.trans hstep.2.1,
        hr.2.2.1.trans hstep.2.2.1, hr.2.2.2.1.trans hstep.2.2.2,
        hr.2.2.2.2⟩

/-- **C6**: `split` with the memo cache enabled returns exactly the
rectangles of the uncached computation, on a cache hit and after any
sequence of prior splits (evictions included); the cache affects cost
only, never the result. -/
theorem c6_cache_transparency (d : Direction) (cs : List Constraint)
    (fl : Flex) (sp : Spacing) (cap : Nat) (prior : List Rect) (area : Rect) :
    ((Layout.mk d cs fl sp none).split area).1 =
      calculate_layout d cs fl sp area ∧
    ((runSplits (Layout.mk d cs fl sp (some ⟨cap, []⟩)) prior).split area).1 =
      calculate_layout d cs fl sp area := by
  constructor
  · rfl
  · have hok0 : (Layout.mk d cs fl sp (some ⟨cap, []⟩)).cacheOK := by
      intro c hc
      injection hc with hc2
      rw [← hc2]
      intro e he
      exact absurd he (by simp)
    have hr := runSplits_spec prior (Layout.mk d cs fl sp (some ⟨cap, []⟩)) hok0
    rw [Layout.split_fst _ area hr.2.2.2.2, hr.1, hr.2.1, hr.2.2.1,
      hr.2.2.2.1]

/-- The backend capability trait (backend.rs `Backend`), modelled over an
abstract backend state `β` with error type `ε`: each operation fails or
returns the updated backend state (the `&mut self` of the trait). -/
structure BackendOps (β ε : Type) where
  size : β → Except ε (Rect × β)
  clear : β → Except ε β
  hideCursor : β → Except ε β
  showCursor : β → Except ε β
  setCursor : β → Nat → Nat → Except ε β
  enableRawMode : β → Except ε β
  enterAlternateScreen : β → Except ε β
  drawCell : β → Nat → Nat → Cell → Except ε β
  flush : β → Except ε β

/-- `terminal::TerminalOptions`. -/
structure TerminalOptions where
  alternate_screen : Bool
  hide_cursor : Bool

/-- `terminal::Terminal`: backend state, the two buffers (`buffers: [Buffer; 2]`
split into named fields), the current index, and cursor-visibility state. -/
structure TerminalM (β : Type) where
  backend : β
  buf0 : Buffer
  buf1 : Buffer
  current : Nat
  hidden_cursor : Bool

/-- `self.buffers[i]` (indices used are only ever 0 and 1; `% 2` mirrors
how `next = (current + 1) % 2` keeps them in range). -/
def TerminalM.bufAt (t : TerminalM β) (i : Nat) : Buffer :=
  if i % 2 = 0 then t.buf0 else t.buf1

/-- `self.buffers[i] = b`. -/
def TerminalM.setBufAt (t : TerminalM β) (i : Nat) (b : Buffer) :
    TerminalM β :=
  if i % 2 = 0 then { t with buf0 := b } else { t with buf1 := b }

/-- `Terminal::with_options` (terminal.rs lines 56-77): size query, then
the optional alternate-screen / hide-cursor steps, raw mode, clear, flush,
in that order; the first failure aborts construction. -/
def TerminalM.with_options (ops : BackendOps β ε) (backend : β)
    (options : TerminalOptions) : Except ε (TerminalM β) :=
  match ops.size backend with
  | .error e => .error e
  | .ok (size, bk0) =>
    match (if options.alternate_screen then ops.enterAlternateScreen bk0
      else .ok bk0) with
    | .error e => .error e
    | .ok bk1 =>
      match (if options.hide_cursor then ops.hideCursor bk1 else .ok bk1) with
      | .error e => .error e
      | .ok bk2 =>
        match ops.enableRawMode bk2 with
        | .error e => .error e
        | .ok bk3 =>
          match ops.clear bk3 with
          | .error e => .error e
          | .ok bk4 =>
            match ops.flush bk4 with
            | .error e => .error e
            | .ok bk5 =>
              .ok ⟨bk5, Buffer.empty size, Buffer.empty size, 0,
                options.hide_cursor⟩

/-- `Terminal::clear`: backend clear, then clear the current buffer. -/
def TerminalM.clearT (ops : BackendOps β ε) (t : TerminalM β) :
    Except ε Unit × TerminalM β :=
  match ops.clear t.backend with
  | .error e => (.error e, t)
  | .ok bk =>
      (.ok Unit.unit,
        { (t.setBufAt t.current ((t.bufAt t.current).clear)) with
          backend := bk })

/-- `Terminal::show_cursor`. -/
def TerminalM.show_cursor (ops : BackendOps β ε) (t : TerminalM β) :
    Except ε Unit × TerminalM β :=
  match ops.showCursor t.backend with
  | .error e => (.error e, t)
  | .ok bk => (.ok Unit.unit, { t with backend := bk, hidden_cursor := false })

/-- `Terminal::hide_cursor`. -/
def TerminalM.hide_cursor (ops : BackendOps β ε) (t : TerminalM β) :
    Except ε Unit × TerminalM β :=
  match ops.hideCursor t.backend with
  | .error e => (.error e, t)
  | .ok bk => (.ok Unit.unit, { t with backend := bk, hidden_cursor := true })

/-- `Terminal::set_cursor`. -/
def TerminalM.set_cursor (ops : BackendOps β ε) (t : TerminalM β)
    (x y : Nat) : Except ε Unit × TerminalM β :=
  match ops.setCursor t.backend x y with
  | .error e => (.error e, t)
  | .ok bk => (.ok Unit.unit, { t with backend := bk })

/-- `Terminal::resize` (private; terminal.rs lines 142-147): resize both
buffers, then backend clear — the buffer resizes stay applied even when
the clear fails. -/
def TerminalM.resizeT (ops : BackendOps β ε) (t : TerminalM β) (size : Rect) :
    Except ε Unit × TerminalM β :=
  match ops.clear t.backend with
  | .error e =>
      (.error e,
        { t with buf0 := t.buf0.resize size, buf1 := t.buf1.resize size })
  | .ok bk =>
      (.ok Unit.unit,
        { t with
            buf0 := t.buf0.resize size
            buf1 := t.buf1.resize size
            backend := bk })

/-- The inner loop of `draw`'s replay: `for cell in change.cells
{ backend.draw_cell(change.x, change.y, cell)? }`. -/
def drawRecCells (ops : BackendOps β ε) (x y : Nat) :
    List Cell → β → Except ε Unit × β
  | [], bk => (.ok Unit.unit, bk)
  | c :: rest, bk =>
      match ops.drawCell bk x y c with
      | .error e => (.error e, bk)
      | .ok bk1 => drawRecCells ops x y rest bk1

/-- The outer loop of `draw`'s replay over the diff records. -/
def drawDiffs (ops : BackendOps β ε) :
    List DiffRec → β → Except ε Unit × β
  | [], bk => (.ok Unit.unit, bk)
  | r :: rest, bk =>
      match drawRecCells ops r.x r.y r.cells bk with
      | (.error e, bk1) => (.error e, bk1)
      | (.ok _, bk1) => drawDiffs ops rest bk1

/-- Steps (a)-(c) of `Terminal::draw`: size query, resize-if-changed, clear
the next buffer, run the render callback on it (the callback receives the
frame area `size` and the next buffer, as `Frame` does). -/
def TerminalM.drawPrep (ops : BackendOps β ε) (t : TerminalM β)
    (render : Rect → Buffer → Buffer) : Except ε Unit × TerminalM β :=
  match ops.size t.backend with
  | .error e => (.error e, t)
  | .ok (size, bk) =>
      match (if size = (({ t with backend := bk } : TerminalM β).bufAt
            t.current).area then
          (Except.ok Unit.unit, ({ t with backend := bk } : TerminalM β))
        else ({ t with backend := bk } : TerminalM β).resizeT ops size) with
      | (.error e, t2) => (.error e, t2)
      | (.ok _, t2) =>
          (.ok Unit.unit,
            (t2.setBufAt ((t2.current + 1) % 2)
                ((t2.bufAt ((t2.current + 1) % 2)).clear)).setBufAt
              ((t2.current + 1) % 2)
              (render size
                ((t2.setBufAt ((t2.current + 1) % 2)
                    ((t2.bufAt ((t2.current + 1) % 2)).clear)).bufAt
                  ((t2.current + 1) % 2))))

/-- `Terminal::draw` (terminal.rs lines 107-139): prepare (size/resize/
clear/render), diff current against next, replay every record's cells to
the backend, flush, and only then swap `current`. -/
def TerminalM.draw (ops : BackendOps β ε) (t : TerminalM β)
    (render : Rect → Buffer → Buffer) : Except ε Unit × TerminalM β :=
  match t.drawPrep ops render with
  | (.error e, t1) => (.error e, t1)
  | (.ok _, t3) =>
      match drawDiffs ops
        (Buffer.diff (t3.bufAt t3.current) (t3.bufAt ((t3.current + 1) % 2)))
        t3.backend with
      | (.error e, bk1) => (.error e, { t3 with backend := bk1 })
      | (.ok _, bk1) =>
          match ops.flush bk1 with
          | .error e => (.error e, { t3 with backend := bk1 })
          | .ok bk2 =>
              (.ok Unit.unit,
                { t3 with backend := bk2, current := (t3.current + 1) % 2 })

theorem TerminalM.setBufAt_current (t : TerminalM β) (i : Nat) (b : Buffer) :
    (t.setBufAt i b).current = t.current := by
  unfold TerminalM.setBufAt
  split <;> rfl

theorem TerminalM.resizeT_current (ops : BackendOps β ε) (t : TerminalM β)
    (size : Rect) : ((t.resizeT ops size).2).current = t.current := by
  unfold TerminalM.resizeT
  cases ops.clear t.backend <;> rfl

theorem TerminalM.drawPrep_current (ops : BackendOps β ε) (t : TerminalM β)
    (render : Rect → Buffer → Buffer) :
    ((t.drawPrep ops render).2).current = t.current := by
  unfold TerminalM.drawPrep
  cases hs : ops.size t.backend with
  | error e => rfl
  | ok p =>
      rcases p with ⟨size, bk⟩
      dsimp only
      by_cases hsz : size = (({ t with backend := bk } : TerminalM β).bufAt
          t.current).area
      · rw [if_pos hsz]
        dsimp only
        rw [TerminalM.setBufAt_current, TerminalM.setBufAt_current]
      · rw [if_neg hsz]
        have hcz := TerminalM.resizeT_current ops
          ({ t with backend := bk } : TerminalM β) size
        rcases hr : ({ t with backend := bk } : TerminalM β).resizeT ops size
          with ⟨res, t2⟩
        rw [hr] at hcz
        cases res with
        | error e => exact hcz
        | ok u =>
            dsimp only
            rw [TerminalM.setBufAt_current, TerminalM.setBufAt_current]
            exact hcz

/-- **C7**: `Terminal::draw` is atomic with respect to the buffer swap:
when every backend call succeeds the result is `ok` and `current` is
swapped to `(current + 1) % 2`; when any backend call (size query, clear
during resize, per-cell draw, flush) fails, that error is returned and
`current` is unchanged — no partial-success state is exposed. -/
theorem c7_draw_atomicity {β ε : Type} (ops : BackendOps β ε)
    (t : TerminalM β) (render : Rect → Buffer → Buffer) :
    ((TerminalM.draw ops t render).1 = Except.ok Unit.unit →
      (TerminalM.draw ops t render).2.current = (t.current + 1) % 2) ∧
    (∀ e, (TerminalM.draw ops t render).1 = Except.error e →
      (TerminalM.draw ops t render).2.current = t.current) := by
  rcases hp : t.drawPrep ops render with ⟨pr, t3⟩
  have hcur3 : t3.current = t.current := by
    have h := TerminalM.drawPrep_current ops t render
    rw [hp] at h
    exact h
  cases pr with
  | error e0 =>
      have hdraw : TerminalM.draw ops t render = (Except.error e0, t3) := by
        unfold TerminalM.draw
        rw [hp]
      constructor
      · intro hok
        rw [hdraw] at hok
        exact absurd hok (by simp)
      · intro e _
        rw [hdraw]
        exact hcur3
  | ok u =>
      rcases hd : drawDiffs ops (Buffer.diff (t3.bufAt t3.current)
          (t3.bufAt ((t3.current + 1) % 2))) t3.backend with ⟨dr, bk1⟩
      cases dr with
      | error e0 =>
          have hdraw : TerminalM.draw ops t render =
              (Except.error e0, { t3 with backend := bk1 }) := by
            unfold TerminalM.draw
            rw [hp]
            dsimp only
            rw [hd]
          constructor
          · intro hok
            rw [hdraw] at hok
            exact absurd hok (by simp)
          · intro e _
            rw [hdraw]
            exact hcur3
      | ok u2 =>
          cases hf : ops.flush bk1 with
          | error e0 =>
              have hdraw : TerminalM.draw ops t render =
                  (Except.error e0, { t3 with backend := bk1 }) := by
                unfold TerminalM.draw
                rw [hp]
                dsimp only
                rw [hd]
                dsimp only
                rw [hf]
              constructor
              · intro hok
                rw [hdraw] at hok
                exact absurd hok (by simp)
              · intro e _
                rw [hdraw]
                exact hcur3
          | ok bk2 =>
              have hdraw : TerminalM.draw ops t render = (Except.ok Unit.unit,
                  { t3 with backend := bk2, current := (t3.current + 1) % 2 }) := by
                unfold TerminalM.draw
                rw [hp]
                dsimp only
                rw [hd]
                dsimp only
                rw [hf]
              constructor
              · intro _
                rw [hdraw]
                dsimp only
                rw [hcur3]
              · intro e he
                rw [hdraw] at he
                exact absurd he (by simp)

/-- An always-succeeding backend over trivial state, for witnesses. -/
def okOps : BackendOps Unit Unit where
  size := fun _ => .ok (⟨0, 0, 1, 1⟩, ())
  clear := fun _ => .ok ()
  hideCursor := fun _ => .ok ()
  showCursor := fun _ => .ok ()
  setCursor := fun _ _ _ => .ok ()
  enableRawMode := fun _ => .ok ()
  enterAlternateScreen := fun _ => .ok ()
  drawCell := fun _ _ _ _ => .ok ()
  flush := fun _ => .ok ()

/-- A concrete 1-by-1 terminal matching `okOps`'s reported size. -/
def okTerm : TerminalM Unit :=
  ⟨(), Buffer.empty ⟨0, 0, 1, 1⟩, Buffer.empty ⟨0, 0, 1, 1⟩, 0, true⟩

/-- Witness for C7: a fully successful draw returns `ok` and swaps
`current` from 0 to 1. -/
theorem c7_witness :
    (TerminalM.draw okOps okTerm (fun _ b => b)).1 = Except.ok Unit.unit ∧
    (TerminalM.draw okOps okTerm (fun _ b => b)).2.current =
      (okTerm.current + 1) % 2 := by
  have hok : (TerminalM.draw okOps okTerm (fun _ b => b)).1 =
      Except.ok Unit.unit := by rfl
  exact ⟨hok, (c7_draw_atomicity okOps okTerm (fun _ b => b)).1 hok⟩

theorem foldl_area_preserved {σ : Type} (f : Buffer → σ → Buffer)
    (hf : ∀ nb s, (f nb s).area = nb.area) :
    ∀ (l : List σ) (nb : Buffer), (l.foldl f nb).area = nb.area := by
  intro l
  induction l with
  | nil => intro nb; rfl
  | cons s rest ih =>
      intro nb
      rw [List.foldl_cons, ih, hf]

theorem Buffer.resize_area (b : Buffer) (a : Rect) : (b.resize a).area = a := by
  unfold Buffer.resize
  split
  · rename_i h
    exact h.symm
  · refine (foldl_area_preserved _ ?_ _ _).trans rfl
    intro nb s
    rcases b.get s.1 s.2 with _ | cell
    · rfl
    · rcases nb.index_of s.1 s.2 with _ | i
      · rfl
      · rfl

/-- A render callback that never changes the frame buffer's area (true of
all widget rendering, which writes through `set`/`set_string`). -/
def AreaPres (render : Rect → Buffer → Buffer) : Prop :=
  ∀ a b, (render a b).area = b.area

/-- The two internal buffers cover identical areas. -/
def TerminalM.eqArea (t : TerminalM β) : Prop := t.buf0.area = t.buf1.area

theorem TerminalM.setBufAt_eqArea (t : TerminalM β) (i : Nat) (b : Buffer)
    (hb : b.area = (t.bufAt i).area) (he : t.eqArea) :
    (t.setBufAt i b).eqArea := by
  unfold TerminalM.setBufAt TerminalM.bufAt at *
  unfold TerminalM.eqArea at *
  by_cases h : i % 2 = 0
  · rw [if_pos h] at hb ⊢
    dsimp only
    rw [hb]
    exact he
  · rw [if_neg h] at hb ⊢
    dsimp only
    rw [hb]
    exact he

theorem TerminalM.bufAt_congr_area (t : TerminalM β) (he : t.eqArea)
    (i j : Nat) : (t.bufAt i).area = (t.bufAt j).area := by
  unfold TerminalM.bufAt TerminalM.eqArea at *
  by_cases hi : i % 2 = 0 <;> by_cases hj : j % 2 = 0 <;> simp [hi, hj, he]

theorem TerminalM.resizeT_eqArea (ops : BackendOps β ε) (t : TerminalM β)
    (size : Rect) : ((t.resizeT ops size).2).eqArea := by
  unfold TerminalM.resizeT
  cases ops.clear t.backend with
  | error e =>
      show (t.buf0.resize size).area = (t.buf1.resize size).area
      rw [Buffer.resize_area, Buffer.resize_area]
  | ok bk =>
      show (t.buf0.resize size).area = (t.buf1.resize size).area
      rw [Buffer.resize_area, Buffer.resize_area]

theorem TerminalM.drawPrep_eqArea (ops : BackendOps β ε) (t : TerminalM β)
    (render : Rect → Buffer → Buffer) (hap : AreaPres render)
    (he : t.eqArea) : ((t.drawPrep ops render).2).eqArea := by
  unfold TerminalM.drawPrep
  cases hs : ops.size t.backend with
  | error e => exact he
  | ok p =>
      rcases p with ⟨size, bk⟩
      dsimp only
      have he1 : ({ t with backend := bk } : TerminalM β).eqArea := he
      by_cases hsz : size = (({ t with backend := bk } : TerminalM β).bufAt
          t.current).area
      · rw [if_pos hsz]
        dsimp only
        apply TerminalM.setBufAt_eqArea
        · exact hap _ _
        · apply TerminalM.setBufAt_eqArea
          · rfl
          · exact he1
      · rw [if_neg hsz]
        have her := TerminalM.resizeT_eqArea ops
          ({ t with backend := bk } : TerminalM β) size
        rcases hr : ({ t with backend := bk } : TerminalM β).resizeT ops size
          with ⟨res, t2⟩
        rw [hr] at her
        cases res with
        | error e => exact her
        | ok u =>
            dsimp only
            apply TerminalM.setBufAt_eqArea
            · exact hap _ _
            · apply TerminalM.setBufAt_eqArea
              · rfl
              · exact her

theorem TerminalM.draw_eqArea (ops : BackendOps β ε) (t : TerminalM β)
    (render : Rect → Buffer → Buffer) (hap : AreaPres render)
    (he : t.eqArea) : ((TerminalM.draw ops t render).2).eqArea := by
  unfold TerminalM.draw
  have hpe := TerminalM.drawPrep_eqArea ops t render hap he
  rcases hp : t.drawPrep ops render with ⟨pr, t3⟩
  rw [hp] at hpe
  cases pr with
  | error e => exact hpe
  | ok u =>
      dsimp only
      rcases hd : drawDiffs ops (Buffer.diff (t3.bufAt t3.current)
          (t3.bufAt ((t3.current + 1) % 2))) t3.backend with ⟨dr, bk1⟩
      cases dr with
      | error e => exact hpe
      | ok u2 =>
          dsimp only
          cases hf : ops.flush bk1 with
          | error e => exact hpe
          | ok bk2 => exact hpe

theorem with_options_eqArea {β ε : Type} (ops : BackendOps β ε) (bk : β)
    (opts : TerminalOptions) (t2 : TerminalM β)
    (h : TerminalM.with_options ops bk opts = Except.ok t2) : t2.eqArea := by
  unfold TerminalM.with_options at h
  repeat' split at h
  all_goals first
    | (injection h with h2; rw [← h2]; rfl)
    | injection h

/-- `okOps` but reporting a 2-by-2 terminal size. -/
def c10ops : BackendOps Unit Unit :=
  { okOps with size := fun _ => .ok (⟨0, 0, 2, 2⟩, ()) }

/-- The terminal `with_options` builds against `c10ops`. -/
def c10term : TerminalM Unit :=
  ⟨(), Buffer.empty ⟨0, 0, 2, 2⟩, Buffer.empty ⟨0, 0, 2, 2⟩, 0, true⟩

/-- A draw callback that resizes the frame buffer (legal through the public
`Frame::buffer_mut`, which hands out `&mut Buffer`). -/
def c10render : Rect → Buffer → Buffer := fun _ b => b.resize ⟨0, 0, 3, 3⟩

/-- **C10 counterexample**: starting from the constructed terminal, one
successful public `draw` whose callback resizes the frame buffer leaves the
two internal buffers with different areas (2-by-2 vs 3-by-3) — and that
draw diffed unequal-area buffers — refuting the invariant as stated. -/
theorem c10_counterexample :
    TerminalM.with_options c10ops () ⟨true, true⟩ = Except.ok c10term ∧
    (TerminalM.draw c10ops c10term c10render).1 = Except.ok Unit.unit ∧
    (TerminalM.draw c10ops c10term c10render).2.buf0.area ≠
      (TerminalM.draw c10ops c10term c10render).2.buf1.area :=
  ⟨rfl, rfl, by decide⟩

/-- **C10 (amended)**: provided every draw callback leaves the frame
buffer's area unchanged (as widget rendering through `set`/`set_string`
does), the two internal buffers always have identical areas: construction
creates both at the backend size, `clear` and the cursor operations leave
them untouched, `draw` preserves the invariant on success and on every
error path (a detected resize resizes both buffers to the same new size),
and the two buffers handed to `diff` inside `draw` have equal areas. -/
theorem c10_equal_area_invariant (β ε : Type) (ops : BackendOps β ε) :
    (∀ (bk : β) (opts : TerminalOptions) (t2 : TerminalM β),
      TerminalM.with_options ops bk opts = Except.ok t2 → t2.eqArea) ∧
    (∀ t : TerminalM β, t.eqArea → ((TerminalM.clearT ops t).2).eqArea) ∧
    (∀ t : TerminalM β, t.eqArea →
      ((TerminalM.show_cursor ops t).2).eqArea ∧
      ((TerminalM.hide_cursor ops t).2).eqArea ∧
      (∀ x y, ((TerminalM.set_cursor ops t x y).2).eqArea)) ∧
    (∀ (t : TerminalM β) (render : Rect → Buffer → Buffer),
      AreaPres render → t.eqArea →
      ((TerminalM.draw ops t render).2).eqArea) ∧
    (∀ (t : TerminalM β) (render : Rect → Buffer → Buffer),
      AreaPres render → t.eqArea →
      ((((t.drawPrep ops render).2).bufAt
          ((t.drawPrep ops render).2).current).area =
        (((t.drawPrep ops render).2).bufAt
          ((((t.drawPrep ops render).2).current + 1) % 2)).area)) := by
  refine ⟨fun bk opts t2 h => with_options_eqArea ops bk opts t2 h,
    ?_, ?_, fun t render hap he => TerminalM.draw_eqArea ops t render hap he,
    ?_⟩
  · intro t he
    unfold TerminalM.clearT
    cases ops.clear t.backend with
    | error e => exact he
    | ok bk =>
        exact TerminalM.setBufAt_eqArea t t.current
          ((t.bufAt t.current).clear) rfl he
  · intro t he
    refine ⟨?_, ?_, ?_⟩
    · unfold TerminalM.show_cursor
      cases ops.showCursor t.backend with
      | error e => exact he
      | ok bk => exact he
    · unfold TerminalM.hide_cursor
      cases ops.hideCursor t.backend with
      | error e => exact he
      | ok bk => exact he
    · intro x y
      unfold TerminalM.set_cursor
      cases ops.setCursor t.backend x y with
      | error e => exact he
      | ok bk => exact he
  · intro t render hap he
    have hpe := TerminalM.drawPrep_eqArea ops t render hap he
    exact TerminalM.bufAt_congr_area _ hpe _ _

/-- Witness for C10 (amended): with the identity (area-preserving) render
callback on the concrete 1-by-1 terminal, the invariant is maintained
through a draw. -/
theorem c10_witness :
    AreaPres (fun _ b => b) ∧ okTerm.eqArea ∧
    ((TerminalM.draw okOps okTerm (fun _ b => b)).2).eqArea :=
  ⟨fun _ _ => rfl, rfl,
    (c10_equal_area_invariant Unit Unit okOps).2.2.2.1 okTerm (fun _ b => b)
      (fun _ _ => rfl) rfl⟩
